import Mathlib

/-!
Shallow embedding of `src/main.py` of the event-master repository: a batch
tool that reads CSV rows of event attendance, aggregates them into an overall
schedule and per-person schedules, and renders both as sequences of layout
blocks (PDF flowables).

Python dictionaries preserve insertion order, so `dict` values are modelled as
association lists where inserting a fresh key appends at the end.  Python's
`sorted` is a stable sort, and stable sorting by a key is extensionally unique,
so it is modelled by `List.insertionSort` (which inserts each element before
the first strictly-later element, hence is stable).  `datetime.strptime` with
the fixed format `"%d/%m/%Y %H.%M"` is modelled character by character after
the CPython `_strptime` field regexes.  Fallible operations return `Option`
(`none` models a raised `ValueError`).
-/

/-- A calendar date, as in the Python `datetime.date` type (compared
lexicographically by (year, month, day)). -/
structure Date where
  year : Nat
  month : Nat
  day : Nat
deriving DecidableEq, Repr

/-- A time of day, as in the Python `datetime.time` type restricted to the
hour/minute resolution the tool parses (seconds are always zero). -/
structure Time where
  hour : Nat
  minute : Nat
deriving DecidableEq, Repr

/-- The result of `get_datetime`: a Python `datetime` restricted to the
fields the program uses (`.date()` and `.time()`). -/
structure DateTime where
  date : Date
  time : Time
deriving DecidableEq, Repr

/-- Source `class Person(TypedDict)`: a name and a group. -/
structure Person where
  name : String
  group : String
deriving DecidableEq, Repr

/-- The dict key used by `add_event`:
`(event_name, event_date, start_time, end_time, place)`. -/
structure EventKey where
  name : String
  date : Date
  start_time : Time
  end_time : Time
  place : String
deriving DecidableEq, Repr

/-- Source `class Event(EventBase)`: the aggregated event stored as a
value of `events_by_name`. -/
structure Event where
  name : String
  date : Date
  start_time : Time
  end_time : Time
  place : String
  people : List Person
deriving DecidableEq, Repr

/-- Source `class EventPersonal(EventBase)`: one event as seen by one attendee. -/
structure EventPersonal where
  name : String
  date : Date
  start_time : Time
  end_time : Time
  place : String
  group : String
deriving DecidableEq, Repr

/-- Source `class PersonalSchedule(TypedDict)`. -/
structure PersonalSchedule where
  person : String
  events : List EventPersonal
deriving DecidableEq, Repr

/-- One CSV row as produced by `csv.DictReader`: the six column values the
program reads. -/
structure Row where
  event : String
  person : String
  group : String
  place : String
  startTime : String
  endTime : String
deriving DecidableEq, Repr

/-- One parsed record: the local variables bound in the loop body of
`get_schedules` (lines 179-186). -/
structure Record where
  event_name : String
  person : String
  group : String
  date : Date
  start_time : Time
  end_time : Time
  place : String
deriving DecidableEq, Repr

/-- Source `type Events = dict[tuple[str, date, time, time, str], Event]`, as an
insertion-ordered association list. -/
abbrev Events : Type := List (EventKey × Event)

/-- Source `type SchedulesByPerson = dict[str, list[EventPersonal]]`, as an
insertion-ordered association list. -/
abbrev SchedulesByPerson : Type := List (String × List EventPersonal)

/-! ## The datetime parser

`DATE_FORMAT = "%d/%m/%Y"`, `TIME_FORMAT = "%H.%M"`; `get_datetime` calls
`datetime.strptime(s, "%d/%m/%Y %H.%M")`.  CPython compiles this format to the
regex `(3[01]|[12]\d|0[1-9]|[1-9]) / (1[0-2]|0[1-9]|[1-9]) / \d\d\d\d \s+
(2[0-3]|[0-1]\d|\d) \. ([0-5]\d|\d)` (spacing added), anchored at the start,
and raises `ValueError` when the regex does not match, when input remains
after the match, or when the matched numbers do not form a valid
`datetime.date` (day beyond the length of the month, or year 0).  Each field's
alternation is modelled by a deterministic function; this is faithful because
whenever a two-digit alternative matches but the following literal fails, the
backtracked one-digit alternative leaves a digit where the non-digit literal
is required, so the whole match still fails. -/

/-- Source line 57: `DATE_FORMAT = "%d/%m/%Y"`. -/
def DATE_FORMAT : String := "%d/%m/%Y"

/-- Source line 59: `TIME_FORMAT = "%H.%M"` — note the PERIOD between hour
and minute, not a colon. -/
def TIME_FORMAT : String := "%H.%M"

/-- Numeric value of a decimal digit character. -/
def digitVal (c : Char) : Nat := c.toNat - 48

/-- The `%d` field regex `3[01]|[12]\d|0[1-9]|[1-9]`. -/
def matchDay : List Char → Option (Nat × List Char)
  | c1 :: c2 :: rest =>
    if c1 = '3' ∧ (c2 = '0' ∨ c2 = '1') then some (30 + digitVal c2, rest)
    else if (c1 = '1' ∨ c1 = '2') ∧ c2.isDigit then
      some (digitVal c1 * 10 + digitVal c2, rest)
    else if c1 = '0' ∧ ('1' ≤ c2 ∧ c2 ≤ '9') then some (digitVal c2, rest)
    else if '1' ≤ c1 ∧ c1 ≤ '9' then some (digitVal c1, c2 :: rest)
    else none
  | [c1] => if '1' ≤ c1 ∧ c1 ≤ '9' then some (digitVal c1, []) else none
  | [] => none

/-- The `%m` field regex `1[0-2]|0[1-9]|[1-9]`. -/
def matchMonth : List Char → Option (Nat × List Char)
  | c1 :: c2 :: rest =>
    if c1 = '1' ∧ ('0' ≤ c2 ∧ c2 ≤ '2') then some (10 + digitVal c2, rest)
    else if c1 = '0' ∧ ('1' ≤ c2 ∧ c2 ≤ '9') then some (digitVal c2, rest)
    else if '1' ≤ c1 ∧ c1 ≤ '9' then some (digitVal c1, c2 :: rest)
    else none
  | [c1] => if '1' ≤ c1 ∧ c1 ≤ '9' then some (digitVal c1, []) else none
  | [] => none

/-- The `%Y` field regex `\d\d\d\d`. -/
def matchYear4 : List Char → Option (Nat × List Char)
  | a :: b :: c :: d :: rest =>
    if a.isDigit ∧ b.isDigit ∧ c.isDigit ∧ d.isDigit then
      some (((digitVal a * 10 + digitVal b) * 10 + digitVal c) * 10
        + digitVal d, rest)
    else none
  | _ => none

/-- The `%H` field regex `2[0-3]|[0-1]\d|\d`. -/
def matchHour : List Char → Option (Nat × List Char)
  | c1 :: c2 :: rest =>
    if c1 = '2' ∧ ('0' ≤ c2 ∧ c2 ≤ '3') then some (20 + digitVal c2, rest)
    else if (c1 = '0' ∨ c1 = '1') ∧ c2.isDigit then
      some (digitVal c1 * 10 + digitVal c2, rest)
    else if c1.isDigit then some (digitVal c1, c2 :: rest)
    else none
  | [c1] => if c1.isDigit then some (digitVal c1, []) else none
  | [] => none

/-- The `%M` field regex `[0-5]\d|\d`. -/
def matchMinute : List Char → Option (Nat × List Char)
  | c1 :: c2 :: rest =>
    if ('0' ≤ c1 ∧ c1 ≤ '5') ∧ c2.isDigit then
      some (digitVal c1 * 10 + digitVal c2, rest)
    else if c1.isDigit then some (digitVal c1, c2 :: rest)
    else none
  | [c1] => if c1.isDigit then some (digitVal c1, []) else none
  | [] => none

/-- ASCII whitespace recognised by the regex class `\s`. -/
def isSpaceChar (c : Char) : Bool :=
  c = ' ' ∨ c = '\t' ∨ c = '\n' ∨ c = '\x0b' ∨ c = '\x0c' ∨ c = '\r'

/-- A literal character in the compiled format regex. -/
def matchLit (lit : Char) : List Char → Option (List Char)
  | c :: rest => if c = lit then some rest else none
  | [] => none

/-- Whitespace in the format string is compiled to `\s+`: one or more
whitespace characters (greedy; the following field starts with a digit, so
greediness never needs to backtrack). -/
def matchSpaces : List Char → Option (List Char)
  | c :: rest => if isSpaceChar c then some (rest.dropWhile isSpaceChar) else none
  | [] => none

/-- Gregorian leap-year rule used by `datetime.date`. -/
def isLeapYear (y : Nat) : Bool :=
  (y % 4 = 0 ∧ y % 100 ≠ 0) ∨ y % 400 = 0

/-- Number of days in a month, as validated by `datetime.date`. -/
def daysInMonth (y m : Nat) : Nat :=
  if m = 2 then (if isLeapYear y then 29 else 28)
  else if m = 4 ∨ m = 6 ∨ m = 9 ∨ m = 11 then 30
  else 31

/-- Source `get_datetime` (lines 97-98): `datetime.strptime` of the string
with the combined date and time format; `none` models the `ValueError`
raised on a format mismatch,
on unconverted trailing input, or on an invalid calendar date. -/
def get_datetime (s : String) : Option DateTime :=
  match matchDay s.data with
  | none => none
  | some (d, r1) =>
    match matchLit '/' r1 with
    | none => none
    | some r2 =>
      match matchMonth r2 with
      | none => none
      | some (m, r3) =>
        match matchLit '/' r3 with
        | none => none
        | some r4 =>
          match matchYear4 r4 with
          | none => none
          | some (y, r5) =>
            match matchSpaces r5 with
            | none => none
            | some r6 =>
              match matchHour r6 with
              | none => none
              | some (h, r7) =>
                match matchLit '.' r7 with
                | none => none
                | some r8 =>
                  match matchMinute r8 with
                  | none => none
                  | some (mi, r9) =>
                    if r9 = [] ∧ 1 ≤ y ∧ d ≤ daysInMonth y m then
                      some ⟨⟨y, m, d⟩, ⟨h, mi⟩⟩
                    else none

/-- The loop body of `get_schedules` (lines 179-186): parse the start
datetime into a date and a start time, the end datetime into an end time,
and read the remaining columns.  `none` models a `ValueError` propagating
out of `get_datetime`. -/
def parseRecord (row : Row) : Option Record :=
  match get_datetime row.startTime with
  | none => none
  | some event_datetime =>
    match get_datetime row.endTime with
    | none => none
    | some endDatetime =>
      some { event_name := row.event
             person := row.person
             group := row.group
             date := event_datetime.date
             start_time := event_datetime.time
             end_time := endDatetime.time
             place := row.place }

/-! ## Sorting

`get_events_sorted_by_time` (lines 101-107) is the Python stable `sorted` builtin with
key `(event["date"], event["start_time"])`; `date` and `time` objects compare
lexicographically by components.  A stable sort is extensionally determined
by its comparison key, so it is modelled by `List.insertionSort` (which is
stable: `orderedInsert` places the inserted element before the first element
it is `≼` to, and elements are inserted back to front). -/

/-- The five projections shared by every `EventBase`-shaped record, matching
the `Schedule = TypeVar("Schedule", bound=EventBase)` genericity of the
source. -/
class EventBaseLike (α : Type) where
  name : α → String
  date : α → Date
  start_time : α → Time
  end_time : α → Time
  place : α → String

instance : EventBaseLike Event :=
  ⟨Event.name, Event.date, Event.start_time, Event.end_time, Event.place⟩

instance : EventBaseLike EventPersonal :=
  ⟨EventPersonal.name, EventPersonal.date, EventPersonal.start_time,
   EventPersonal.end_time, EventPersonal.place⟩

/-- The Python lexicographic comparison of the tuples
`(date, start_time) ≤ (date, start_time)`, with `date` compared by
(year, month, day) and `time` by (hour, minute). -/
def schedKeyLe (d1 : Date) (t1 : Time) (d2 : Date) (t2 : Time) : Prop :=
  d1.year < d2.year ∨ (d1.year = d2.year ∧
    (d1.month < d2.month ∨ (d1.month = d2.month ∧
      (d1.day < d2.day ∨ (d1.day = d2.day ∧
        (t1.hour < t2.hour ∨ (t1.hour = t2.hour ∧ t1.minute ≤ t2.minute)))))))

instance schedKeyLe.decidable (d1 t1 d2 t2) : Decidable (schedKeyLe d1 t1 d2 t2) := by
  unfold schedKeyLe; infer_instance

/-- The comparison used by the `key` lambda of `get_events_sorted_by_time`. -/
def schedLe {α : Type} [EventBaseLike α] (a b : α) : Prop :=
  schedKeyLe (EventBaseLike.date a) (EventBaseLike.start_time a)
    (EventBaseLike.date b) (EventBaseLike.start_time b)

instance schedLe.decidable {α : Type} [EventBaseLike α] :
    DecidableRel (@schedLe α _) := fun a b => by
  unfold schedLe; infer_instance

instance schedLe.isTotal {α : Type} [EventBaseLike α] : IsTotal α schedLe where
  total a b := by unfold schedLe schedKeyLe; omega

instance schedLe.isTrans {α : Type} [EventBaseLike α] : IsTrans α schedLe where
  trans a b c := by unfold schedLe schedKeyLe; omega

/-- Source `get_events_sorted_by_time` (lines 101-107). -/
def get_events_sorted_by_time {α : Type} [EventBaseLike α]
    (events : List α) : List α :=
  List.insertionSort schedLe events

/-! ## Aggregation -/

/-- Source `add_event` (lines 110-136): look up the key tuple; if absent, insert a
fresh event at the end of the (insertion-ordered) dict, otherwise append the
`(person, group)` pair to the `people` list of the stored event. -/
def add_event (event_name : String) (events_by_name : Events)
    (person group : String) (event_date : Date)
    (start_time end_time : Time) (place : String) : Events :=
  let key : EventKey := ⟨event_name, event_date, start_time, end_time, place⟩
  let person_and_group : Person := ⟨person, group⟩
  if key ∈ events_by_name.map Prod.fst then
    events_by_name.map (fun kv =>
      if kv.1 = key then
        (kv.1, { kv.2 with people := kv.2.people ++ [person_and_group] })
      else kv)
  else
    events_by_name ++
      [(key, ⟨event_name, event_date, start_time, end_time, place,
        [person_and_group]⟩)]

/-- Source `add_personal_event` (lines 139-161): append the personal event to the
list of that person, creating the list on first occurrence. -/
def add_personal_event (event_name : String)
    (schedules_by_person : SchedulesByPerson) (person group : String)
    (event_date : Date) (start_time end_time : Time) (place : String) :
    SchedulesByPerson :=
  let personal_event : EventPersonal :=
    ⟨event_name, event_date, start_time, end_time, place, group⟩
  if person ∈ schedules_by_person.map Prod.fst then
    schedules_by_person.map (fun kv =>
      if kv.1 = person then (kv.1, kv.2 ++ [personal_event]) else kv)
  else
    schedules_by_person ++ [(person, [personal_event])]

/-- The row loop of `get_schedules` (lines 178-207): fold every row into
both views, aborting the whole run on the first row whose datetimes fail to
parse (the `ValueError` from `strptime` propagates). -/
def get_schedules_aux :
    List Row → Events → SchedulesByPerson → Option (Events × SchedulesByPerson)
  | [], events_by_name, schedules_by_person =>
    some (events_by_name, schedules_by_person)
  | row :: rest, events_by_name, schedules_by_person =>
    match parseRecord row with
    | none => none
    | some r =>
      get_schedules_aux rest
        (add_event r.event_name events_by_name r.person r.group r.date
          r.start_time r.end_time r.place)
        (add_personal_event r.event_name schedules_by_person r.person r.group
          r.date r.start_time r.end_time r.place)

/-- Source `get_schedules` (lines 164-218): the aggregate events are the dict values
in insertion order; the events of each personal schedule are sorted by
`get_events_sorted_by_time`. -/
def get_schedules (rows : List Row) :
    Option (List Event × List PersonalSchedule) :=
  match get_schedules_aux rows [] [] with
  | none => none
  | some (events_by_name, schedules_by_person) =>
    some (events_by_name.map Prod.snd,
      schedules_by_person.map (fun kv =>
        ⟨kv.1, get_events_sorted_by_time kv.2⟩))

/-! ## Formatting and document building -/

/-- Two-digit zero-padded decimal rendering, as `strftime` does for `%d`,
`%m`, `%H` and `%M` (all in-range values have at most two digits). -/
def pad2 (n : Nat) : String :=
  String.mk [Nat.digitChar (n / 10), Nat.digitChar (n % 10)]

/-- Four-digit zero-padded decimal rendering, as `strftime` does for `%Y`
(`datetime` years are between 1 and 9999). -/
def pad4 (n : Nat) : String :=
  String.mk [Nat.digitChar (n / 1000 % 10), Nat.digitChar (n / 100 % 10),
    Nat.digitChar (n / 10 % 10), Nat.digitChar (n % 10)]

/-- Source `get_date` (lines 221-222): `date.strftime("%d/%m/%Y")`. -/
def get_date (date : Date) : String :=
  pad2 date.day ++ "/" ++ pad2 date.month ++ "/" ++ pad4 date.year

/-- Source `get_time` (lines 225-226): `time.strftime("%H.%M")`. -/
def get_time (time : Time) : String :=
  pad2 time.hour ++ "." ++ pad2 time.minute

/-- A table cell: either a plain string or a `Paragraph` flowable built by
`get_paragraph` (the `str | Paragraph` of `type EventRow`). -/
inductive Cell where
  | str (s : String)
  | par (s : String)
deriving DecidableEq, Repr

/-- Source `type EventRow = tuple[str | Paragraph, ...]`. -/
abbrev EventRow := List Cell

/-- Source `get_paragraph` (lines 86-94): wrap text in a `Paragraph` with the fixed
`TableCell` style (the style is constant, so only the text is modelled). -/
def get_paragraph (text : String) : Cell := Cell.par text

/-- One flowable appended to the document: the title paragraph
(`styles["Title"]`), a date-heading paragraph (`date_style`), the module
level `Spacer(1, 12)`, or a `Table` with fixed column widths (the constant
`table_style` is applied to every table, so it is not modelled). -/
inductive Block where
  | title (text : String)
  | dateHeader (text : String)
  | spacer
  | table (rows : List EventRow) (colWidths : List Nat)
deriving DecidableEq, Repr

/-- Source `type PDFContent = list[Flowable]`. -/
abbrev PDFContent := List Block

/-- Source `get_events_by_date` (lines 229-243): group the events by their
formatted date string, keys in first-seen order, then sort each group in
place with `get_events_sorted_by_time`. -/
def get_events_by_date {α : Type} [EventBaseLike α] (events : List α) :
    List (String × List α) :=
  let grouped : List (String × List α) :=
    events.foldl (fun events_by_date event =>
      let date_str := get_date (EventBaseLike.date event)
      if date_str ∈ events_by_date.map Prod.fst then
        events_by_date.map (fun kv =>
          if kv.1 = date_str then (kv.1, kv.2 ++ [event]) else kv)
      else
        events_by_date ++ [(date_str, [event])]) []
  grouped.map (fun kv => (kv.1, get_events_sorted_by_time kv.2))

/-- Source `get_event_duration` (lines 246-247). -/
def get_event_duration {α : Type} [EventBaseLike α] (event : α) : String :=
  get_time (EventBaseLike.start_time event) ++ " - " ++
    get_time (EventBaseLike.end_time event)

/-- Source `build_schedule_pdf` (lines 250-273): a title and spacer, then, per date
group, a date-heading paragraph followed — only when the group yields at
least one table row — by the table and a spacer (`continue` skips the table
but the heading has already been appended). -/
def build_schedule_pdf {α : Type} (title : String)
    (events_by_date : List (String × List α))
    (get_event : α → List EventRow) (col_widths : List Nat) : PDFContent :=
  [Block.title title, Block.spacer] ++
    events_by_date.flatMap (fun kv =>
      let table_data := kv.2.flatMap get_event
      Block.dateHeader kv.1 ::
        (if table_data = [] then []
         else [Block.table table_data col_widths, Block.spacer]))

/-- Source `get_person_in_event` (lines 276-296): the first attendee row carries the
duration, event name and place; later rows blank those columns. -/
def get_person_in_event {α : Type} [EventBaseLike α] (index : Nat)
    (event : α) (person : Person) : EventRow :=
  if index = 0 then
    [Cell.str (get_event_duration event), Cell.str (EventBaseLike.name event),
     get_paragraph person.name, get_paragraph person.group,
     Cell.str (EventBaseLike.place event)]
  else
    [Cell.str "", Cell.str "", get_paragraph person.name,
     get_paragraph person.group, Cell.str ""]

/-- Source `build_overall_schedule_pdf` (lines 299-314): one row per attendee plus
a trailing empty row per event. -/
def build_overall_schedule_pdf (events : List Event) : PDFContent :=
  build_schedule_pdf "Aikataulu" (get_events_by_date events)
    (fun event =>
      (event.people.enum.map (fun ip => get_person_in_event ip.1 event ip.2))
        ++ [[]])
    [80, 174, 90, 100, 80]

/-- Source `build_personal_schedule_pdf` (lines 317-334): one row per event. -/
def build_personal_schedule_pdf (person_name : String)
    (events : List EventPersonal) : PDFContent :=
  build_schedule_pdf person_name (get_events_by_date events)
    (fun event =>
      [[Cell.str (get_event_duration event), get_paragraph event.name,
        get_paragraph event.group, Cell.str event.place]])
    [80, 225, 120, 100]

/-- The effects of a successful run, as pure data: the output directory
created by `os.makedirs` and the documents written, in order. -/
structure MainOutput where
  outputFolder : String
  files : List (String × PDFContent)
deriving DecidableEq, Repr

/-- The `__main__` block (lines 346-368): `get_schedules` runs first, so a
parse error aborts the run before the output directory is created or any
document is built; otherwise the aggregate document and one document per
person are produced.  (`os.path.join` is modelled as `"/"`-joining.) -/
def main_run (rows : List Row) (output_folder : String) : Option MainOutput :=
  match get_schedules rows with
  | none => none
  | some (all_events, personal_schedules) =>
    some { outputFolder := output_folder
           files :=
             (output_folder ++ "/schedule.pdf",
               build_overall_schedule_pdf all_events) ::
             personal_schedules.map (fun schedule =>
               (output_folder ++ "/" ++ schedule.person ++ ".pdf",
                 build_personal_schedule_pdf schedule.person schedule.events)) }

/-! ## Derived definitions used to state and prove the claims -/

/-- Parsing of a whole input row list, in row order,
aborting at the first failing row (as the loop in `get_schedules` does). -/
def parseRows : List Row → Option (List Record)
  | [] => some []
  | row :: rest =>
    match parseRecord row with
    | none => none
    | some r => (parseRows rest).map (fun rs => r :: rs)

/-- One `add_event` call with the arguments the loop passes for record `r`. -/
def stepE (events_by_name : Events) (r : Record) : Events :=
  add_event r.event_name events_by_name r.person r.group r.date r.start_time
    r.end_time r.place

/-- One `add_personal_event` call with the arguments the loop passes. -/
def stepP (schedules_by_person : SchedulesByPerson) (r : Record) :
    SchedulesByPerson :=
  add_personal_event r.event_name schedules_by_person r.person r.group r.date
    r.start_time r.end_time r.place

/-- The `events_by_name` dict after folding a record list from empty. -/
def buildEvents (recs : List Record) : Events := recs.foldl stepE []

/-- The `schedules_by_person` dict after folding a record list from empty. -/
def buildPersonal (recs : List Record) : SchedulesByPerson :=
  recs.foldl stepP []

/-- The dict key `(event_name, event_date, start_time, end_time, place)`
that `add_event` computes for a record. -/
def recKey (r : Record) : EventKey :=
  ⟨r.event_name, r.date, r.start_time, r.end_time, r.place⟩

/-- The key tuple recoverable from the own fields of an aggregated event. -/
def eventKeyOf (e : Event) : EventKey :=
  ⟨e.name, e.date, e.start_time, e.end_time, e.place⟩

/-- The `Event` value stored for key `k` with a given attendee list. -/
def mkEventK (k : EventKey) (ps : List Person) : Event :=
  ⟨k.name, k.date, k.start_time, k.end_time, k.place, ps⟩

/-- The `EventPersonal` dict value `add_personal_event` builds for a record. -/
def mkPersonal (r : Record) : EventPersonal :=
  ⟨r.event_name, r.date, r.start_time, r.end_time, r.place, r.group⟩

/-- Dict lookup in an association list (first entry with the given key). -/
def assocLookup {κ ν : Type} [DecidableEq κ] (k : κ) (m : List (κ × ν)) :
    Option ν :=
  (m.find? (fun kv => decide (kv.1 = k))).map Prod.snd

/-- The `(person, group)` pairs contributed to key `k` by a record list, in
input order. -/
def peopleOf (k : EventKey) (recs : List Record) : List Person :=
  (recs.filter (fun r => decide (recKey r = k))).map
    (fun r => ⟨r.person, r.group⟩)

/-- The personal events contributed to person `p` by a record list, in input
order. -/
def personalOf (p : String) (recs : List Record) : List EventPersonal :=
  (recs.filter (fun r => decide (r.person = p))).map mkPersonal

/-- All attendees recorded for key `k` in an aggregate event list. -/
def attendeesOf (k : EventKey) (evs : List Event) : List Person :=
  (evs.filter (fun e => decide (eventKeyOf e = k))).flatMap Event.people

/-- The generic insert-or-append step shared by the Python
`dict[key].append(...)` / `dict[key] = [...]` pattern in
`add_personal_event` and `get_events_by_date`. -/
def appendAssoc {κ ν : Type} [DecidableEq κ] (m : List (κ × List ν))
    (k : κ) (v : ν) : List (κ × List ν) :=
  if k ∈ m.map Prod.fst then
    m.map (fun kv => if kv.1 = k then (kv.1, kv.2 ++ [v]) else kv)
  else
    m ++ [(k, [v])]

/-- Append a key to a key list unless already present: how a Python dict's
key order evolves. -/
def insertIfAbsent {κ : Type} [DecidableEq κ] (ks : List κ) (k : κ) :
    List κ :=
  if k ∈ ks then ks else ks ++ [k]

/-- The first occurrence of each element of a list, in order of first
occurrence: the key order of a dict built by repeated insertion. -/
def firstOccurrences {κ : Type} [DecidableEq κ] : List κ → List κ
  | [] => []
  | a :: l => a :: (firstOccurrences l).filter (fun b => decide (b ≠ a))

/-- The date-header texts of a block sequence, in order. -/
def dateHeaders (content : PDFContent) : List String :=
  content.filterMap (fun b =>
    match b with
    | Block.dateHeader s => some s
    | _ => none)

/-- Strict lexicographic comparison of dates, as the Python `date <` comparison. -/
def dateLt (a b : Date) : Prop :=
  a.year < b.year ∨ (a.year = b.year ∧
    (a.month < b.month ∨ (a.month = b.month ∧ a.day < b.day)))

instance dateLt.decidable (a b : Date) : Decidable (dateLt a b) := by
  unfold dateLt; infer_instance

/-- The component ranges every date produced by `get_datetime` satisfies
(the regex admits days 1-31, months 1-12, four-digit years; year 0 and
days beyond the length of the month are rejected by `datetime.date`). -/
def validDate (d : Date) : Prop :=
  1 ≤ d.year ∧ d.year ≤ 9999 ∧ 1 ≤ d.month ∧ d.month ≤ 12 ∧
    1 ≤ d.day ∧ d.day ≤ daysInMonth d.year d.month

/-- Modelled from the spec: a datetime string "formatted as
`DD/MM/YYYY HH.MM`" — two-digit zero-padded day, month, hour and minute, a
four-digit year, slash date separators and a period between hour and
minute.  Used to state which inputs the parser accepts. -/
def formattedDateTime (d m y h mi : Nat) : String :=
  pad2 d ++ "/" ++ pad2 m ++ "/" ++ pad4 y ++ " " ++ pad2 h ++ "." ++ pad2 mi

/-! ## Lemmas about the datetime parser -/

theorem daysInMonth_le_31 (y m : Nat) : daysInMonth y m ≤ 31 := by
  unfold daysInMonth
  split <;> [split <;> omega; skip]
  split <;> omega

theorem digitChar_isDigit {k : Nat} (hk : k ≤ 9) :
    (Nat.digitChar k).isDigit = true := by
  interval_cases k <;> decide

theorem digitVal_digitChar {k : Nat} (hk : k ≤ 9) :
    digitVal (Nat.digitChar k) = k := by
  interval_cases k <;> decide

theorem isSpaceChar_digitChar {k : Nat} (hk : k ≤ 9) :
    isSpaceChar (Nat.digitChar k) = false := by
  interval_cases k <;> decide

theorem matchDay_padded {d : Nat} (h1 : 1 ≤ d) (h2 : d ≤ 31) (rest : List Char) :
    matchDay (Nat.digitChar (d / 10) :: Nat.digitChar (d % 10) :: rest) =
      some (d, rest) := by
  interval_cases d <;> rfl

theorem matchMonth_padded {m : Nat} (h1 : 1 ≤ m) (h2 : m ≤ 12) (rest : List Char) :
    matchMonth (Nat.digitChar (m / 10) :: Nat.digitChar (m % 10) :: rest) =
      some (m, rest) := by
  interval_cases m <;> rfl

theorem matchHour_padded {h : Nat} (hh : h ≤ 23) (rest : List Char) :
    matchHour (Nat.digitChar (h / 10) :: Nat.digitChar (h % 10) :: rest) =
      some (h, rest) := by
  interval_cases h <;> rfl

theorem matchMinute_padded {mi : Nat} (hmi : mi ≤ 59) (rest : List Char) :
    matchMinute (Nat.digitChar (mi / 10) :: Nat.digitChar (mi % 10) :: rest) =
      some (mi, rest) := by
  interval_cases mi <;> rfl

theorem matchYear4_padded {y : Nat} (hy : y ≤ 9999) (rest : List Char) :
    matchYear4 (Nat.digitChar (y / 1000 % 10) :: Nat.digitChar (y / 100 % 10) ::
      Nat.digitChar (y / 10 % 10) :: Nat.digitChar (y % 10) :: rest) =
      some (y, rest) := by
  have h1 : y / 1000 % 10 ≤ 9 := by omega
  have h2 : y / 100 % 10 ≤ 9 := by omega
  have h3 : y / 10 % 10 ≤ 9 := by omega
  have h4 : y % 10 ≤ 9 := by omega
  simp [matchYear4, digitChar_isDigit h1, digitChar_isDigit h2,
    digitChar_isDigit h3, digitChar_isDigit h4, digitVal_digitChar h1,
    digitVal_digitChar h2, digitVal_digitChar h3, digitVal_digitChar h4]
  omega

theorem matchSpaces_single {k : Nat} (hk : k ≤ 9) (rest : List Char) :
    matchSpaces (' ' :: Nat.digitChar k :: rest) =
      some (Nat.digitChar k :: rest) := by
  simp [matchSpaces, List.dropWhile_cons, isSpaceChar_digitChar hk]
  rfl

theorem formattedDateTime_data (d m y h mi : Nat) :
    (formattedDateTime d m y h mi).data =
      Nat.digitChar (d / 10) :: Nat.digitChar (d % 10) :: '/' ::
      Nat.digitChar (m / 10) :: Nat.digitChar (m % 10) :: '/' ::
      Nat.digitChar (y / 1000 % 10) :: Nat.digitChar (y / 100 % 10) ::
      Nat.digitChar (y / 10 % 10) :: Nat.digitChar (y % 10) :: ' ' ::
      Nat.digitChar (h / 10) :: Nat.digitChar (h % 10) :: '.' ::
      Nat.digitChar (mi / 10) :: Nat.digitChar (mi % 10) :: [] := by
  simp [formattedDateTime, pad2, pad4, String.data_append]

theorem get_datetime_formatted {d m y h mi : Nat} (hd1 : 1 ≤ d)
    (hd2 : d ≤ daysInMonth y m) (hm1 : 1 ≤ m) (hm2 : m ≤ 12) (hy1 : 1 ≤ y)
    (hy2 : y ≤ 9999) (hh : h ≤ 23) (hmi : mi ≤ 59) :
    get_datetime (formattedDateTime d m y h mi) =
      some ⟨⟨y, m, d⟩, ⟨h, mi⟩⟩ := by
  have hd31 : d ≤ 31 := le_trans hd2 (daysInMonth_le_31 y m)
  have hh10 : h / 10 ≤ 9 := by omega
  rw [get_datetime, formattedDateTime_data]
  simp [matchDay_padded hd1 hd31, matchLit, matchMonth_padded hm1 hm2,
    matchYear4_padded hy2, matchSpaces_single hh10, matchHour_padded hh,
    matchMinute_padded hmi, hy1, hd2]

theorem digitVal_le_9 {c : Char} (h1 : '0' ≤ c) (h2 : c ≤ '9') :
    digitVal c ≤ 9 := by
  simp [Char.le_def] at h1 h2
  have h2' : c.val.toNat ≤ 57 := h2
  simp [digitVal, Char.toNat]
  omega

theorem digitVal_le_of_isDigit {c : Char} (h : c.isDigit = true) :
    digitVal c ≤ 9 := by
  simp [Char.isDigit] at h
  have h2' : c.val.toNat ≤ 57 := h.2
  simp [digitVal, Char.toNat]
  omega

theorem one_le_digitVal {c : Char} (h1 : '1' ≤ c) : 1 ≤ digitVal c := by
  simp [Char.le_def] at h1
  have h1' : 49 ≤ c.val.toNat := h1
  simp [digitVal, Char.toNat]
  omega

theorem matchDay_bounds {cs r : List Char} {d : Nat}
    (h : matchDay cs = some (d, r)) : 1 ≤ d ∧ d ≤ 31 := by
  match cs with
  | [] => simp [matchDay] at h
  | [c1] =>
    simp only [matchDay] at h
    split at h
    · rename_i hc
      injection h with h'
      injection h' with h1 h2
      have := one_le_digitVal hc.1
      have := digitVal_le_9 (le_trans (by decide) hc.1) hc.2
      omega
    · simp at h
  | c1 :: c2 :: rest =>
    simp only [matchDay] at h
    split at h
    · rename_i hc
      injection h with h'
      injection h' with h1 h2
      obtain ⟨hc1, hc2⟩ := hc
      rcases hc2 with hc2 | hc2 <;> subst hc2 <;>
        [rw [show digitVal '0' = 0 from by decide] at h1;
         rw [show digitVal '1' = 1 from by decide] at h1] <;> omega
    · split at h
      · rename_i hc
        injection h with h'
        injection h' with h1 h2
        obtain ⟨hc1, hc2⟩ := hc
        have hd2 := digitVal_le_of_isDigit hc2
        rcases hc1 with hc1 | hc1 <;> subst hc1 <;>
          [rw [show digitVal '1' = 1 from by decide] at h1;
           rw [show digitVal '2' = 2 from by decide] at h1] <;> omega
      · split at h
        · rename_i hc
          injection h with h'
          injection h' with h1 h2
          have := one_le_digitVal hc.2.1
          have := digitVal_le_9 (le_trans (by decide) hc.2.1) hc.2.2
          omega
        · split at h
          · rename_i hc
            injection h with h'
            injection h' with h1 h2
            have := one_le_digitVal hc.1
            have := digitVal_le_9 (le_trans (by decide) hc.1) hc.2
            omega
          · simp at h

theorem digitVal_mono {c u : Char} (h : c ≤ u) : digitVal c ≤ digitVal u := by
  simp [Char.le_def] at h
  have h' : c.val.toNat ≤ u.val.toNat := h
  simp [digitVal, Char.toNat]
  omega

theorem matchMonth_bounds {cs r : List Char} {m : Nat}
    (h : matchMonth cs = some (m, r)) : 1 ≤ m ∧ m ≤ 12 := by
  match cs with
  | [] => simp [matchMonth] at h
  | [c1] =>
    simp only [matchMonth] at h
    split at h
    · rename_i hc
      injection h with h'
      injection h' with h1 h2
      have := one_le_digitVal hc.1
      have := digitVal_mono hc.2
      rw [show digitVal '9' = 9 from by decide] at this
      omega
    · simp at h
  | c1 :: c2 :: rest =>
    simp only [matchMonth] at h
    split at h
    · rename_i hc
      injection h with h'
      injection h' with h1 h2
      have := digitVal_mono hc.2.2
      rw [show digitVal '2' = 2 from by decide] at this
      omega
    · split at h
      · rename_i hc
        injection h with h'
        injection h' with h1 h2
        have := one_le_digitVal hc.2.1
        have := digitVal_mono hc.2.2
        rw [show digitVal '9' = 9 from by decide] at this
        omega
      · split at h
        · rename_i hc
          injection h with h'
          injection h' with h1 h2
          have := one_le_digitVal hc.1
          have := digitVal_mono hc.2
          rw [show digitVal '9' = 9 from by decide] at this
          omega
        · simp at h

theorem matchYear4_bounds {cs r : List Char} {y : Nat}
    (h : matchYear4 cs = some (y, r)) : y ≤ 9999 := by
  match cs with
  | [] => simp [matchYear4] at h
  | [c1] => simp [matchYear4] at h
  | [c1, c2] => simp [matchYear4] at h
  | [c1, c2, c3] => simp [matchYear4] at h
  | c1 :: c2 :: c3 :: c4 :: rest =>
    simp only [matchYear4] at h
    split at h
    · rename_i hc
      injection h with h'
      injection h' with h1 h2
      have b1 := digitVal_le_of_isDigit hc.1
      have b2 := digitVal_le_of_isDigit hc.2.1
      have b3 := digitVal_le_of_isDigit hc.2.2.1
      have b4 := digitVal_le_of_isDigit hc.2.2.2
      omega
    · simp at h

theorem get_datetime_validDate {s : String} {dt : DateTime}
    (h : get_datetime s = some dt) : validDate dt.date := by
  unfold get_datetime at h
  split at h <;> try exact Option.noConfusion h
  rename_i d r1 hday
  split at h <;> try exact Option.noConfusion h
  rename_i r2 hlit1
  split at h <;> try exact Option.noConfusion h
  rename_i m r3 hmonth
  split at h <;> try exact Option.noConfusion h
  rename_i r4 hlit2
  split at h <;> try exact Option.noConfusion h
  rename_i y r5 hyear
  split at h <;> try exact Option.noConfusion h
  rename_i r6 hsp
  split at h <;> try exact Option.noConfusion h
  rename_i hr r7 hhour
  split at h <;> try exact Option.noConfusion h
  rename_i r8 hlit3
  split at h <;> try exact Option.noConfusion h
  rename_i mi r9 hmin
  split at h
  · rename_i hcond
    injection h with h'
    subst h'
    obtain ⟨hr9, hy1, hdm⟩ := hcond
    have hd := matchDay_bounds hday
    have hm := matchMonth_bounds hmonth
    have hy := matchYear4_bounds hyear
    refine ⟨hy1, hy, hm.1, hm.2, hd.1, hdm⟩
  · exact Option.noConfusion h

theorem digitChar_inj {a b : Nat} (ha : a ≤ 9) (hb : b ≤ 9)
    (h : Nat.digitChar a = Nat.digitChar b) : a = b := by
  interval_cases a <;> interval_cases b <;>
    first
    | rfl
    | exact absurd h (by decide)

theorem get_date_data (d : Date) :
    (get_date d).data =
      Nat.digitChar (d.day / 10) :: Nat.digitChar (d.day % 10) :: '/' ::
      Nat.digitChar (d.month / 10) :: Nat.digitChar (d.month % 10) :: '/' ::
      Nat.digitChar (d.year / 1000 % 10) :: Nat.digitChar (d.year / 100 % 10) ::
      Nat.digitChar (d.year / 10 % 10) :: Nat.digitChar (d.year % 10) :: [] := by
  simp [get_date, pad2, pad4, String.data_append]

theorem get_date_injOn {d1 d2 : Date} (hv1 : validDate d1) (hv2 : validDate d2)
    (h : get_date d1 = get_date d2) : d1 = d2 := by
  have hdata := congrArg String.data h
  rw [get_date_data, get_date_data] at hdata
  obtain ⟨hy1a, hy1b, hm1a, hm1b, hd1a, hd3⟩ := hv1
  obtain ⟨hy2a, hy2b, hm2a, hm2b, hd2a, he3⟩ := hv2
  have hd31 : d1.day ≤ 31 := le_trans hd3 (daysInMonth_le_31 _ _)
  have he31 : d2.day ≤ 31 := le_trans he3 (daysInMonth_le_31 _ _)
  simp only [List.cons.injEq, and_true, true_and, Char.isValue,
    reduceCtorEq] at hdata
  obtain ⟨q1, q2, q3, q4, q5, q6, q7, q8⟩ := hdata
  have e1 := digitChar_inj (by omega) (by omega) q1
  have e2 := digitChar_inj (by omega) (by omega) q2
  have e3 := digitChar_inj (by omega) (by omega) q3
  have e4 := digitChar_inj (by omega) (by omega) q4
  have e5 := digitChar_inj (by omega) (by omega) q5
  have e6 := digitChar_inj (by omega) (by omega) q6
  have e7 := digitChar_inj (by omega) (by omega) q7
  have e8 := digitChar_inj (by omega) (by omega) q8
  have hday : d1.day = d2.day := by omega
  have hmonth : d1.month = d2.month := by omega
  have hyear : d1.year = d2.year := by omega
  cases d1
  cases d2
  simp only [Date.mk.injEq]
  exact ⟨hyear, hmonth, hday⟩

/-! ## Stability of the sort -/

theorem filter_orderedInsert {α : Type} (r : α → α → Prop) [DecidableRel r]
    (p : α → Bool) (hp : ∀ a b, p a = true → p b = true → r a b)
    (a : α) (L : List α) :
    (L.orderedInsert r a).filter p =
      if p a then a :: L.filter p else L.filter p := by
  induction L with
  | nil => simp [List.orderedInsert, List.filter_cons]
  | cons b L ih =>
    simp only [List.orderedInsert]
    by_cases hr : r a b
    · rw [if_pos hr]
      by_cases hpa : p a
      · simp [List.filter_cons, hpa]
      · simp [List.filter_cons, hpa]
    · rw [if_neg hr]
      by_cases hpa : p a
      · have hpb : p b = false := by
          rcases hb : p b with _ | _
          · rfl
          · exact absurd (hp a b hpa hb) hr
        simp [List.filter_cons, hpb, ih, hpa]
      · simp [List.filter_cons, ih, hpa]

theorem filter_insertionSort {α : Type} (r : α → α → Prop) [DecidableRel r]
    (p : α → Bool) (hp : ∀ a b, p a = true → p b = true → r a b)
    (l : List α) :
    (List.insertionSort r l).filter p = l.filter p := by
  induction l with
  | nil => rfl
  | cons a l ih =>
    simp only [List.insertionSort, filter_orderedInsert r p hp, ih,
      List.filter_cons]

theorem schedKeyLe_refl (d : Date) (t : Time) : schedKeyLe d t d t := by
  unfold schedKeyLe; omega

/-- Stability of `get_events_sorted_by_time`: the subsequence of events with
any fixed `(date, start_time)` key is exactly the subsequence of the input with
that key. -/
theorem get_events_sorted_by_time_stable {α : Type} [EventBaseLike α]
    (events : List α) (d : Date) (t : Time) :
    (get_events_sorted_by_time events).filter
        (fun e => decide (EventBaseLike.date e = d ∧
          EventBaseLike.start_time e = t)) =
      events.filter (fun e => decide (EventBaseLike.date e = d ∧
        EventBaseLike.start_time e = t)) := by
  apply filter_insertionSort
  intro a b ha hb
  simp only [decide_eq_true_eq] at ha hb
  unfold schedLe
  rw [ha.1, ha.2, hb.1, hb.2]
  exact schedKeyLe_refl d t

/-! ## Association-list (Python dict) lemmas -/

theorem map_fst_update {κ ν : Type} [DecidableEq κ] (m : List (κ × ν))
    (k : κ) (u : ν → ν) :
    (m.map (fun kv => if kv.1 = k then (kv.1, u kv.2) else kv)).map Prod.fst =
      m.map Prod.fst := by
  induction m with
  | nil => rfl
  | cons kv m ih =>
    by_cases h : kv.1 = k <;> simp [h, ih]

theorem appendAssoc_keys {κ ν : Type} [DecidableEq κ] (m : List (κ × List ν))
    (k : κ) (v : ν) :
    (appendAssoc m k v).map Prod.fst = insertIfAbsent (m.map Prod.fst) k := by
  unfold appendAssoc insertIfAbsent
  by_cases h : k ∈ m.map Prod.fst
  · rw [if_pos h, if_pos h]
    exact map_fst_update m k (fun vs => vs ++ [v])
  · rw [if_neg h, if_neg h]
    simp

theorem assocLookup_update_self {κ ν : Type} [DecidableEq κ]
    {m : List (κ × ν)} {k : κ} {w : ν} (u : ν → ν)
    (h : assocLookup k m = some w) :
    assocLookup k (m.map (fun kv => if kv.1 = k then (kv.1, u kv.2) else kv)) =
      some (u w) := by
  unfold assocLookup at *
  rw [List.find?_map]
  have hpred : ((fun kv : κ × ν => decide (kv.1 = k)) ∘
      (fun kv => if kv.1 = k then (kv.1, u kv.2) else kv)) =
      (fun kv : κ × ν => decide (kv.1 = k)) := by
    funext kv
    by_cases hk : kv.1 = k <;> simp [hk]
  rw [hpred]
  rcases hf : m.find? (fun kv => decide (kv.1 = k)) with _ | kv0
  · rw [hf] at h
    exact Option.noConfusion h
  · rw [hf] at h
    rw [hf]
    have hk0 : kv0.1 = k := by
      have := List.find?_some hf
      simpa using this
    have hw : kv0.2 = w := by
      simpa using h
    simp [hk0, hw]

theorem assocLookup_update_ne {κ ν : Type} [DecidableEq κ]
    (m : List (κ × ν)) (k k' : κ) (u : ν → ν) (h : k' ≠ k) :
    assocLookup k' (m.map (fun kv => if kv.1 = k then (kv.1, u kv.2) else kv)) =
      assocLookup k' m := by
  unfold assocLookup
  rw [List.find?_map]
  have hpred : ((fun kv : κ × ν => decide (kv.1 = k')) ∘
      (fun kv => if kv.1 = k then (kv.1, u kv.2) else kv)) =
      (fun kv : κ × ν => decide (kv.1 = k')) := by
    funext kv
    by_cases hk : kv.1 = k <;> simp [hk]
  rw [hpred]
  rcases hf : m.find? (fun kv => decide (kv.1 = k')) with _ | kv0
  · rw [hf]; rfl
  · rw [hf]
    have hk0 : kv0.1 = k' := by
      have := List.find?_some hf
      simpa using this
    have hne : ¬ kv0.1 = k := by rw [hk0]; exact h
    simp [if_neg hne]

theorem assocLookup_append_absent {κ ν : Type} [DecidableEq κ]
    (m : List (κ × ν)) (k : κ) (v : ν) (h : k ∉ m.map Prod.fst) :
    assocLookup k (m ++ [(k, v)]) = some v := by
  unfold assocLookup
  rw [List.find?_append]
  have hnone : m.find? (fun kv => decide (kv.1 = k)) = none := by
    rw [List.find?_eq_none]
    intro kv hkv
    simp only [decide_eq_true_eq]
    intro he
    exact h (he ▸ List.mem_map_of_mem Prod.fst hkv)
  rw [hnone]
  simp [List.find?_cons]

theorem assocLookup_append_ne {κ ν : Type} [DecidableEq κ]
    (m : List (κ × ν)) (k k' : κ) (v : ν) (h : k' ≠ k) :
    assocLookup k' (m ++ [(k, v)]) = assocLookup k' m := by
  unfold assocLookup
  rw [List.find?_append]
  rcases hf : m.find? (fun kv => decide (kv.1 = k')) with _ | kv0
  · rw [hf]
    simp [List.find?_cons, Ne.symm h]
  · rw [hf]
    rfl

theorem assocLookup_eq_none_iff {κ ν : Type} [DecidableEq κ]
    (m : List (κ × ν)) (k : κ) :
    assocLookup k m = none ↔ k ∉ m.map Prod.fst := by
  unfold assocLookup
  rw [Option.map_eq_none', List.find?_eq_none]
  constructor
  · intro hf hk
    obtain ⟨kv, hkv, he⟩ := List.mem_map.mp hk
    exact hf kv hkv (by simp [he])
  · intro hk kv hkv
    simp only [decide_eq_true_eq]
    intro he
    exact hk (he ▸ List.mem_map_of_mem Prod.fst hkv)

theorem appendAssoc_lookup_self {κ ν : Type} [DecidableEq κ]
    (m : List (κ × List ν)) (k : κ) (v : ν) :
    assocLookup k (appendAssoc m k v) =
      some ((assocLookup k m).getD [] ++ [v]) := by
  unfold appendAssoc
  by_cases h : k ∈ m.map Prod.fst
  · rw [if_pos h]
    rcases hl : assocLookup k m with _ | vs
    · rw [assocLookup_eq_none_iff] at hl
      exact absurd h hl
    · rw [assocLookup_update_self (fun vs => vs ++ [v]) hl]
      simp
  · rw [if_neg h, assocLookup_append_absent m k [v] h,
      (assocLookup_eq_none_iff m k).mpr h]
    simp

theorem appendAssoc_lookup_ne {κ ν : Type} [DecidableEq κ]
    (m : List (κ × List ν)) (k : κ) (v : ν) (k' : κ) (h : k' ≠ k) :
    assocLookup k' (appendAssoc m k v) = assocLookup k' m := by
  unfold appendAssoc
  by_cases hm : k ∈ m.map Prod.fst
  · rw [if_pos hm]
    exact assocLookup_update_ne m k k' (fun vs => vs ++ [v]) h
  · rw [if_neg hm]
    exact assocLookup_append_ne m k k' [v] h

theorem assocLookup_foldl_appendAssoc {α κ ν : Type} [DecidableEq κ]
    (f : α → κ) (g : α → ν) (l : List α) (m : List (κ × List ν)) (k : κ) :
    assocLookup k (l.foldl (fun acc a => appendAssoc acc (f a) (g a)) m) =
      match assocLookup k m with
      | some vs => some (vs ++ (l.filter (fun a => decide (f a = k))).map g)
      | none =>
        if (l.filter (fun a => decide (f a = k))).isEmpty then none
        else some ((l.filter (fun a => decide (f a = k))).map g) := by
  induction l generalizing m with
  | nil => rcases hl : assocLookup k m with _ | vs <;> simp [hl]
  | cons a l ih =>
    simp only [List.foldl_cons]
    rw [ih]
    by_cases hfa : f a = k
    · rw [hfa, appendAssoc_lookup_self]
      rcases hl : assocLookup k m with _ | vs <;>
        simp [hl, List.filter_cons, hfa]
    · rw [appendAssoc_lookup_ne m (f a) (g a) k (fun he => hfa he.symm)]
      simp [List.filter_cons, hfa]

theorem keys_foldl_appendAssoc {α κ ν : Type} [DecidableEq κ]
    (f : α → κ) (g : α → ν) (l : List α) (m : List (κ × List ν)) :
    (l.foldl (fun acc a => appendAssoc acc (f a) (g a)) m).map Prod.fst =
      (l.map f).foldl insertIfAbsent (m.map Prod.fst) := by
  induction l generalizing m with
  | nil => rfl
  | cons a l ih =>
    simp only [List.foldl_cons, List.map_cons]
    rw [ih, appendAssoc_keys]

theorem foldl_insertIfAbsent_nodup {κ : Type} [DecidableEq κ]
    (l : List κ) (ks : List κ) (h : ks.Nodup) :
    (l.foldl insertIfAbsent ks).Nodup := by
  induction l generalizing ks with
  | nil => exact h
  | cons a l ih =>
    simp only [List.foldl_cons]
    apply ih
    unfold insertIfAbsent
    by_cases ha : a ∈ ks
    · rw [if_pos ha]; exact h
    · rw [if_neg ha]
      simp [List.nodup_append, h, ha]

theorem mem_foldl_insertIfAbsent {κ : Type} [DecidableEq κ]
    (l : List κ) (ks : List κ) (k : κ) :
    k ∈ l.foldl insertIfAbsent ks ↔ k ∈ ks ∨ k ∈ l := by
  induction l generalizing ks with
  | nil => simp
  | cons a l ih =>
    simp only [List.foldl_cons, ih, List.mem_cons]
    unfold insertIfAbsent
    by_cases ha : a ∈ ks
    · rw [if_pos ha]
      constructor
      · rintro (hk | hk)
        · exact Or.inl hk
        · exact Or.inr (Or.inr hk)
      · rintro (hk | hk | hk)
        · exact Or.inl hk
        · exact Or.inl (hk ▸ ha)
        · exact Or.inr hk
    · rw [if_neg ha]
      simp [List.mem_append]
      tauto

theorem mem_firstOccurrences {κ : Type} [DecidableEq κ] {l : List κ} {k : κ} :
    k ∈ firstOccurrences l ↔ k ∈ l := by
  induction l with
  | nil => simp [firstOccurrences]
  | cons a l ih =>
    simp only [firstOccurrences, List.mem_cons, List.mem_filter, ih]
    by_cases hk : k = a
    · simp [hk]
    · simp [hk]

theorem nodup_firstOccurrences {κ : Type} [DecidableEq κ] (l : List κ) :
    (firstOccurrences l).Nodup := by
  induction l with
  | nil => simp [firstOccurrences]
  | cons a l ih =>
    simp only [firstOccurrences]
    refine List.Nodup.cons ?_ (List.Nodup.filter _ ih)
    intro hmem
    have := (List.mem_filter.mp hmem).2
    simp at this

theorem foldl_insertIfAbsent_general {κ : Type} [DecidableEq κ]
    (l : List κ) (ks : List κ) :
    l.foldl insertIfAbsent ks =
      ks ++ (firstOccurrences l).filter (fun b => decide (b ∉ ks)) := by
  induction l generalizing ks with
  | nil => simp [firstOccurrences]
  | cons a l ih =>
    simp only [List.foldl_cons, firstOccurrences]
    rw [ih]
    by_cases ha : a ∈ ks
    · rw [show insertIfAbsent ks a = ks from if_pos ha]
      rw [List.filter_cons]
      have hda : (decide (a ∉ ks)) = false := by simp [ha]
      rw [hda]
      simp only [Bool.false_eq_true, if_false, List.filter_filter]
      congr 1
      apply List.filter_congr
      intro b _
      by_cases hb : b ∈ ks
      · simp [hb]
      · by_cases hba : b = a
        · exact absurd (hba ▸ ha) hb
        · simp [hb, hba]
    · rw [show insertIfAbsent ks a = ks ++ [a] from if_neg ha]
      rw [List.filter_cons]
      have hda : (decide (a ∉ ks)) = true := by simp [ha]
      rw [hda]
      simp only [if_true, List.append_assoc, List.singleton_append,
        List.filter_filter]
      congr 2
      apply List.filter_congr
      intro b _
      by_cases hb : b ∈ ks
      · simp [hb, List.mem_append]
      · by_cases hba : b = a
        · simp [hba, List.mem_append, ha]
        · simp [hb, hba, List.mem_append]

theorem foldl_insertIfAbsent_nil {κ : Type} [DecidableEq κ] (l : List κ) :
    l.foldl insertIfAbsent [] = firstOccurrences l := by
  rw [foldl_insertIfAbsent_general]
  simp

/-! ## Characterising the aggregation folds -/

theorem stepE_keys (E : Events) (r : Record) :
    (stepE E r).map Prod.fst = insertIfAbsent (E.map Prod.fst) (recKey r) := by
  unfold stepE add_event insertIfAbsent recKey
  by_cases h : (⟨r.event_name, r.date, r.start_time, r.end_time, r.place⟩ :
      EventKey) ∈ E.map Prod.fst
  · rw [if_pos h, if_pos h]
    exact map_fst_update E _
      (fun ev => { ev with people := ev.people ++ [⟨r.person, r.group⟩] })
  · rw [if_neg h, if_neg h]
    simp

theorem stepE_lookup_self (E : Events) (r : Record) :
    assocLookup (recKey r) (stepE E r) =
      some (match assocLookup (recKey r) E with
        | some ev => { ev with people := ev.people ++ [⟨r.person, r.group⟩] }
        | none => mkEventK (recKey r) [⟨r.person, r.group⟩]) := by
  simp only [stepE, add_event]
  rw [show (⟨r.event_name, r.date, r.start_time, r.end_time, r.place⟩ :
    EventKey) = recKey r from rfl]
  by_cases h : recKey r ∈ E.map Prod.fst
  · rw [if_pos h]
    rcases hl : assocLookup (recKey r) E with _ | ev
    · rw [assocLookup_eq_none_iff] at hl
      exact absurd h hl
    · exact assocLookup_update_self
        (fun ev => { ev with people := ev.people ++ [⟨r.person, r.group⟩] }) hl
  · rw [if_neg h]
    rw [(assocLookup_eq_none_iff E (recKey r)).mpr h]
    exact assocLookup_append_absent E (recKey r) _ h

theorem stepE_lookup_ne (E : Events) (r : Record) (k : EventKey)
    (h : k ≠ recKey r) :
    assocLookup k (stepE E r) = assocLookup k E := by
  simp only [stepE, add_event]
  rw [show (⟨r.event_name, r.date, r.start_time, r.end_time, r.place⟩ :
    EventKey) = recKey r from rfl]
  by_cases hm : recKey r ∈ E.map Prod.fst
  · rw [if_pos hm]
    exact assocLookup_update_ne E (recKey r) k
      (fun ev => { ev with people := ev.people ++ [⟨r.person, r.group⟩] }) h
  · rw [if_neg hm]
    exact assocLookup_append_ne E (recKey r) k _ h

theorem assocLookup_foldl_stepE (recs : List Record) (E : Events)
    (k : EventKey) :
    assocLookup k (recs.foldl stepE E) =
      match assocLookup k E with
      | some ev => some { ev with people := ev.people ++ peopleOf k recs }
      | none =>
        if (peopleOf k recs).isEmpty then none
        else some (mkEventK k (peopleOf k recs)) := by
  induction recs generalizing E with
  | nil => rcases hl : assocLookup k E with _ | ev <;> simp [peopleOf, hl]
  | cons r recs ih =>
    simp only [List.foldl_cons]
    rw [ih]
    by_cases hk : recKey r = k
    · subst hk
      rw [stepE_lookup_self]
      have hpf : peopleOf (recKey r) (r :: recs) =
          (⟨r.person, r.group⟩ : Person) :: peopleOf (recKey r) recs := by
        simp [peopleOf, List.filter_cons]
      rw [hpf]
      rcases hl : assocLookup (recKey r) E with _ | ev <;>
        simp [hl, mkEventK]
    · rw [stepE_lookup_ne E r k (fun he => hk he.symm)]
      have hpf : peopleOf k (r :: recs) = peopleOf k recs := by
        simp [peopleOf, List.filter_cons, hk]
      rw [hpf]

theorem keys_foldl_stepE (recs : List Record) (E : Events) :
    (recs.foldl stepE E).map Prod.fst =
      (recs.map recKey).foldl insertIfAbsent (E.map Prod.fst) := by
  induction recs generalizing E with
  | nil => rfl
  | cons r recs ih =>
    simp only [List.foldl_cons, List.map_cons]
    rw [ih, stepE_keys]

theorem buildEvents_keys (recs : List Record) :
    (buildEvents recs).map Prod.fst = firstOccurrences (recs.map recKey) := by
  unfold buildEvents
  rw [keys_foldl_stepE]
  exact foldl_insertIfAbsent_nil _

theorem buildEvents_lookup (recs : List Record) (k : EventKey) :
    assocLookup k (buildEvents recs) =
      if (peopleOf k recs).isEmpty then none
      else some (mkEventK k (peopleOf k recs)) := by
  unfold buildEvents
  rw [assocLookup_foldl_stepE]
  rfl

theorem foldl_stepE_invariant (recs : List Record) (E : Events)
    (hE : ∀ kv ∈ E, eventKeyOf kv.2 = kv.1 ∧ kv.2.people ≠ []) :
    ∀ kv ∈ recs.foldl stepE E, eventKeyOf kv.2 = kv.1 ∧ kv.2.people ≠ [] := by
  induction recs generalizing E with
  | nil => exact hE
  | cons r recs ih =>
    simp only [List.foldl_cons]
    apply ih
    intro kv hkv
    simp only [stepE, add_event] at hkv
    split at hkv
    · obtain ⟨kv0, hkv0, he⟩ := List.mem_map.mp hkv
      by_cases hk : kv0.1 =
          (⟨r.event_name, r.date, r.start_time, r.end_time, r.place⟩ : EventKey)
      · rw [if_pos hk] at he
        subst he
        refine ⟨?_, by simp⟩
        have h1 := (hE kv0 hkv0).1
        simpa [eventKeyOf] using h1
      · rw [if_neg hk] at he
        exact he ▸ hE kv0 hkv0
    · rcases List.mem_append.mp hkv with hkv | hkv
      · exact hE kv hkv
      · simp only [List.mem_singleton] at hkv
        subst hkv
        exact ⟨rfl, by simp⟩

theorem buildEvents_invariant (recs : List Record) :
    ∀ kv ∈ buildEvents recs, eventKeyOf kv.2 = kv.1 ∧ kv.2.people ≠ [] :=
  foldl_stepE_invariant recs [] (by simp)

theorem assocLookup_of_mem_nodup {κ ν : Type} [DecidableEq κ]
    {m : List (κ × ν)} (hn : (m.map Prod.fst).Nodup) {kv : κ × ν}
    (hm : kv ∈ m) : assocLookup kv.1 m = some kv.2 := by
  induction m with
  | nil => simp at hm
  | cons kv0 m ih =>
    rcases List.mem_cons.mp hm with he | hm'
    · subst he
      unfold assocLookup
      simp [List.find?_cons]
    · have hne : kv0.1 ≠ kv.1 := by
        intro he
        have : kv.1 ∈ m.map Prod.fst := List.mem_map_of_mem Prod.fst hm'
        rw [← he] at this
        exact (List.nodup_cons.mp (by simpa using hn)).1 this
      unfold assocLookup
      rw [List.find?_cons]
      have : (decide (kv0.1 = kv.1)) = false := by simp [hne]
      rw [this]
      exact ih (List.nodup_cons.mp (by simpa using hn)).2 hm'

/-! ## Relating `get_schedules` to the folds -/

theorem stepP_eq_appendAssoc (S : SchedulesByPerson) (r : Record) :
    stepP S r = appendAssoc S r.person (mkPersonal r) := rfl

theorem foldl_stepP_eq (recs : List Record) (S : SchedulesByPerson) :
    recs.foldl stepP S =
      recs.foldl (fun acc r => appendAssoc acc r.person (mkPersonal r)) S := by
  induction recs generalizing S with
  | nil => rfl
  | cons r recs ih => simp only [List.foldl_cons, stepP_eq_appendAssoc, ih]

theorem get_schedules_aux_eq (rows : List Row) (E : Events)
    (S : SchedulesByPerson) :
    get_schedules_aux rows E S =
      match parseRows rows with
      | none => none
      | some recs => some (recs.foldl stepE E, recs.foldl stepP S) := by
  induction rows generalizing E S with
  | nil => rfl
  | cons row rest ih =>
    simp only [get_schedules_aux, parseRows]
    rcases h : parseRecord row with _ | r
    · rfl
    · show get_schedules_aux rest
        (add_event r.event_name E r.person r.group r.date r.start_time
          r.end_time r.place)
        (add_personal_event r.event_name S r.person r.group r.date
          r.start_time r.end_time r.place) = _
      rw [ih]
      rcases hp : parseRows rest with _ | recs
      · rfl
      · rfl

theorem get_schedules_eq (rows : List Row) :
    get_schedules rows =
      match parseRows rows with
      | none => none
      | some recs =>
        some ((buildEvents recs).map Prod.snd,
          (buildPersonal recs).map (fun kv =>
            ⟨kv.1, get_events_sorted_by_time kv.2⟩)) := by
  unfold get_schedules
  rw [get_schedules_aux_eq]
  rcases hp : parseRows rows with _ | recs
  · rfl
  · rfl

theorem parseRows_isSome_iff (rows : List Row) :
    (parseRows rows).isSome ↔ ∀ row ∈ rows, (parseRecord row).isSome := by
  induction rows with
  | nil => simp [parseRows]
  | cons row rest ih =>
    simp only [parseRows]
    rcases h : parseRecord row with _ | r
    · simp [h]
    · rcases hp : parseRows rest with _ | recs
      · simp [h, ← ih, hp]
      · simp [h, ← ih, hp]

theorem parseRows_map_person {rows : List Row} {recs : List Record}
    (h : parseRows rows = some recs) :
    recs.map Record.person = rows.map Row.person := by
  induction rows generalizing recs with
  | nil =>
    simp [parseRows] at h
    subst h
    rfl
  | cons row rest ih =>
    simp only [parseRows] at h
    rcases hr : parseRecord row with _ | r
    · rw [hr] at h; exact Option.noConfusion h
    · rw [hr] at h
      rcases hp : parseRows rest with _ | recs'
      · rw [hp] at h; exact Option.noConfusion h
      · rw [hp] at h
        simp only [Option.map_some', Option.some.injEq] at h
        subst h
        have hperson : r.person = row.person := by
          unfold parseRecord at hr
          rcases h1 : get_datetime row.startTime with _ | dt1
          · rw [h1] at hr; exact Option.noConfusion hr
          · rw [h1] at hr
            rcases h2 : get_datetime row.endTime with _ | dt2
            · rw [h2] at hr; exact Option.noConfusion hr
            · rw [h2] at hr
              injection hr with hr'
              rw [← hr']
        simp [hperson, ih hp]

theorem parseRows_perm {rows1 rows2 : List Row} {recs1 recs2 : List Record}
    (hperm : rows1.Perm rows2) (h1 : parseRows rows1 = some recs1)
    (h2 : parseRows rows2 = some recs2) : recs1.Perm recs2 := by
  induction hperm generalizing recs1 recs2 with
  | nil =>
    simp [parseRows] at h1 h2
    subst h1; subst h2
    exact List.Perm.refl _
  | cons x _ ih =>
    simp only [parseRows] at h1 h2
    rcases hx : parseRecord x with _ | rx
    · rw [hx] at h1; exact Option.noConfusion h1
    · rw [hx] at h1 h2
      rcases hp1 : parseRows _ with _ | t1
      · rw [hp1] at h1; exact Option.noConfusion h1
      · rw [hp1] at h1
        rcases hp2 : parseRows _ with _ | t2
        · rw [hp2] at h2; exact Option.noConfusion h2
        · rw [hp2] at h2
          simp only [Option.map_some', Option.some.injEq] at h1 h2
          subst h1; subst h2
          exact (ih hp1 hp2).cons rx
  | swap x y l =>
    simp only [parseRows] at h1 h2
    rcases hx : parseRecord x with _ | rx <;> rw [hx] at h1 h2
    · rcases hy : parseRecord y with _ | ry <;> rw [hy] at h1
      · exact Option.noConfusion h1
      · exact Option.noConfusion h2
    · rcases hy : parseRecord y with _ | ry <;> rw [hy] at h1 h2
      · exact Option.noConfusion h1
      · rcases hp : parseRows l with _ | t <;> rw [hp] at h1 h2
        · exact Option.noConfusion h1
        · simp only [Option.map_some', Option.some.injEq] at h1 h2
          subst h1; subst h2
          exact List.Perm.swap rx ry t
  | trans hab hbc iha ihb =>
    rename_i l1 l2 l3
    have hmid : (parseRows l2).isSome := by
      rw [parseRows_isSome_iff]
      intro row hrow
      have : row ∈ l1 := hab.mem_iff.mpr hrow
      have hall := (parseRows_isSome_iff l1).mp (by simp [h1])
      exact hall row this
    rcases hp : parseRows l2 with _ | recsMid
    · rw [hp] at hmid; simp at hmid
    · exact (iha h1 hp).trans (ihb hp h2)

theorem buildPersonal_lookup (recs : List Record) (p : String) :
    assocLookup p (buildPersonal recs) =
      if (personalOf p recs).isEmpty then none
      else some (personalOf p recs) := by
  unfold buildPersonal
  rw [foldl_stepP_eq,
    assocLookup_foldl_appendAssoc Record.person mkPersonal recs [] p]
  rw [show assocLookup p ([] : SchedulesByPerson) = none from rfl]
  cases hf : recs.filter (fun a => decide (a.person = p)) with
  | nil => simp [personalOf, hf]
  | cons r0 rest => simp [personalOf, hf]

theorem buildPersonal_keys (recs : List Record) :
    (buildPersonal recs).map Prod.fst =
      firstOccurrences (recs.map Record.person) := by
  unfold buildPersonal
  rw [foldl_stepP_eq,
    keys_foldl_appendAssoc Record.person mkPersonal recs []]
  exact foldl_insertIfAbsent_nil _

theorem get_events_by_date_eq {α : Type} [EventBaseLike α] (events : List α) :
    get_events_by_date events =
      (events.foldl (fun acc e =>
        appendAssoc acc (get_date (EventBaseLike.date e)) e) []).map
        (fun kv => (kv.1, get_events_sorted_by_time kv.2)) := rfl

theorem get_events_by_date_keys {α : Type} [EventBaseLike α]
    (events : List α) :
    (get_events_by_date events).map Prod.fst =
      firstOccurrences (events.map (fun e =>
        get_date (EventBaseLike.date e))) := by
  rw [get_events_by_date_eq, List.map_map]
  have : (Prod.fst ∘ fun kv : String × List α =>
      (kv.1, get_events_sorted_by_time kv.2)) = Prod.fst := rfl
  rw [this,
    keys_foldl_appendAssoc (fun e => get_date (EventBaseLike.date e))
      (fun e => e) events []]
  exact foldl_insertIfAbsent_nil _

theorem grouped_entry_eq {α : Type} [EventBaseLike α] (events : List α) :
    ∀ kv ∈ events.foldl (fun acc e =>
        appendAssoc acc (get_date (EventBaseLike.date e)) e) [],
      kv.2 = events.filter (fun e =>
        decide (get_date (EventBaseLike.date e) = kv.1)) ∧ kv.2 ≠ [] := by
  intro kv hkv
  have hkeys : ((events.foldl (fun acc e =>
      appendAssoc acc (get_date (EventBaseLike.date e)) e) []).map
        Prod.fst).Nodup := by
    rw [keys_foldl_appendAssoc (fun e => get_date (EventBaseLike.date e))
      (fun e => e) events []]
    simp only [List.map_nil]
    rw [foldl_insertIfAbsent_nil]
    exact nodup_firstOccurrences _
  have hlook := assocLookup_of_mem_nodup hkeys hkv
  rw [assocLookup_foldl_appendAssoc (fun e => get_date (EventBaseLike.date e))
    (fun e => e) events [] kv.1] at hlook
  simp only [show assocLookup kv.1 ([] : List (String × List α)) = none
    from rfl] at hlook
  split at hlook
  · exact Option.noConfusion hlook
  · rename_i hne
    injection hlook with hv
    constructor
    · rw [← hv]
      simp
    · rw [← hv]
      intro hcon
      rw [List.map_eq_nil_iff] at hcon
      simp [hcon] at hne

theorem get_events_by_date_entries {α : Type} [EventBaseLike α]
    (events : List α) :
    ∀ kv ∈ get_events_by_date events,
      kv.2 ≠ [] ∧ (∀ e ∈ kv.2, get_date (EventBaseLike.date e) = kv.1) ∧
        (∀ e ∈ kv.2, e ∈ events) ∧ kv.2.Sorted schedLe := by
  rw [get_events_by_date_eq]
  intro kv hkv
  obtain ⟨kv0, hkv0, he⟩ := List.mem_map.mp hkv
  obtain ⟨hfil, hne⟩ := grouped_entry_eq events kv0 hkv0
  have he2 : kv.2 = get_events_sorted_by_time kv0.2 := by rw [← he]
  have he1 : kv.1 = kv0.1 := by rw [← he]
  have hmem : ∀ e, e ∈ get_events_sorted_by_time kv0.2 ↔ e ∈ kv0.2 :=
    fun e => (List.perm_insertionSort schedLe kv0.2).mem_iff
  refine ⟨?_, ?_, ?_, ?_⟩
  · rw [he2]
    intro hcon
    have hlen : (get_events_sorted_by_time kv0.2).length = kv0.2.length :=
      (List.perm_insertionSort schedLe kv0.2).length_eq
    rw [hcon] at hlen
    exact hne (List.length_eq_zero.mp hlen.symm)
  · intro e he'
    rw [he2] at he'
    have hm : e ∈ kv0.2 := (hmem e).mp he'
    rw [hfil] at hm
    rw [he1]
    simpa using (List.mem_filter.mp hm).2
  · intro e he'
    rw [he2] at he'
    have hm : e ∈ kv0.2 := (hmem e).mp he'
    rw [hfil] at hm
    exact (List.mem_filter.mp hm).1
  · rw [he2]
    exact List.sorted_insertionSort schedLe kv0.2

/-! ## Order of first occurrences -/

theorem indexOf_le_getElem {κ : Type} [DecidableEq κ] {l : List κ} {j : Nat}
    (hj : j < l.length) : l.indexOf l[j] ≤ j := by
  induction l generalizing j with
  | nil => simp at hj
  | cons x l ih =>
    cases j with
    | zero => simp
    | succ j =>
      have hj2 : j < l.length := by simpa using hj
      by_cases hx : x = l[j]
      · rw [List.getElem_cons_succ, ← hx, List.indexOf_cons_self]
        exact Nat.zero_le _
      · rw [List.getElem_cons_succ, List.indexOf_cons_ne _ hx]
        exact Nat.succ_le_succ (ih hj2)

theorem firstOccurrences_pairwise_indexOf {κ : Type} [DecidableEq κ]
    (l : List κ) :
    (firstOccurrences l).Pairwise (fun a b => l.indexOf a < l.indexOf b) := by
  induction l with
  | nil => simp [firstOccurrences]
  | cons x l ih =>
    simp only [firstOccurrences]
    refine List.Pairwise.cons ?_ ?_
    · intro b hb
      have hbx : b ≠ x := by
        have := (List.mem_filter.mp hb).2
        simpa using this
      rw [List.indexOf_cons_self, List.indexOf_cons_ne _ (Ne.symm hbx)]
      exact Nat.succ_pos _
    · have hpair : ((firstOccurrences l).filter
          (fun b => decide (b ≠ x))).Pairwise
          (fun a b => l.indexOf a < l.indexOf b) :=
        List.Pairwise.sublist (List.filter_sublist _) ih
      refine List.Pairwise.imp_of_mem ?_ hpair
      intro a b ha hb hr
      have hax : a ≠ x := by simpa using (List.mem_filter.mp ha).2
      have hbx : b ≠ x := by simpa using (List.mem_filter.mp hb).2
      rw [List.indexOf_cons_ne _ (Ne.symm hax),
        List.indexOf_cons_ne _ (Ne.symm hbx)]
      exact Nat.succ_lt_succ hr

theorem schedKeyLe_dateLt_or_eq {d1 d2 : Date} {t1 t2 : Time}
    (h : schedKeyLe d1 t1 d2 t2) : dateLt d1 d2 ∨ d1 = d2 := by
  cases d1
  cases d2
  unfold schedKeyLe at h
  unfold dateLt
  simp only [Date.mk.injEq]
  simp only at h
  omega

/-- In a `(date, startTime)`-sorted event list with valid dates, the
first-seen order of the formatted date strings is strictly ascending by
date: every event of an earlier-seen date string has a strictly smaller
date than every event of a later-seen one. -/
theorem groups_pairwise_dateLt {α : Type} [EventBaseLike α]
    (events : List α) (hsort : events.Sorted schedLe)
    (hvalid : ∀ e ∈ events, validDate (EventBaseLike.date e)) :
    ((get_events_by_date events).map Prod.fst).Pairwise (fun k1 k2 =>
      ∀ e1 ∈ events, ∀ e2 ∈ events,
        get_date (EventBaseLike.date e1) = k1 →
        get_date (EventBaseLike.date e2) = k2 →
        dateLt (EventBaseLike.date e1) (EventBaseLike.date e2)) := by
  rw [get_events_by_date_keys]
  have hpair := firstOccurrences_pairwise_indexOf
    (events.map (fun e => get_date (EventBaseLike.date e)))
  refine List.Pairwise.imp_of_mem ?_ hpair
  intro k1 k2 hk1 hk2 hidx e1 he1 e2 he2 hf1 hf2
  set l' := events.map (fun e => get_date (EventBaseLike.date e)) with hl'
  have hk1m : k1 ∈ l' := mem_firstOccurrences.mp hk1
  have hk2m : k2 ∈ l' := mem_firstOccurrences.mp hk2
  have hi1 : l'.indexOf k1 < l'.length := List.indexOf_lt_length.mpr hk1m
  have hlen : l'.length = events.length := List.length_map _ _
  have hi1e : l'.indexOf k1 < events.length := by omega
  -- the first event whose date string is k1
  have ha1 : get_date (EventBaseLike.date (events[l'.indexOf k1])) =
      k1 := by
    have h2 := List.getElem_indexOf hi1
    have h3 : l'[l'.indexOf k1] =
        get_date (EventBaseLike.date (events[l'.indexOf k1])) :=
      List.getElem_map _
    rw [h3] at h2
    exact h2
  -- the position of e2 is at or after the first occurrence of k2
  obtain ⟨j, hj, hje⟩ := List.getElem_of_mem he2
  have hj' : j < l'.length := by omega
  have hjl : l'.indexOf k2 ≤ j := by
    have hlj : l'[j] = k2 := by
      have h4 : l'[j] = get_date (EventBaseLike.date (events[j])) :=
        List.getElem_map _
      rw [h4, hje, hf2]
    calc l'.indexOf k2 = l'.indexOf l'[j] := by rw [hlj]
      _ ≤ j := indexOf_le_getElem hj'
  have hij : l'.indexOf k1 < j := by omega
  -- sortedness between those positions
  have hrel : schedLe (events[l'.indexOf k1]) (events[j]) := by
    have := List.pairwise_iff_getElem.mp hsort
    exact this (l'.indexOf k1) j hi1e hj hij
  rw [hje] at hrel
  have hdle := schedKeyLe_dateLt_or_eq hrel
  -- the representative has the date of e1
  have hrepval : validDate (EventBaseLike.date (events[l'.indexOf k1])) :=
    hvalid _ (List.getElem_mem _)
  have he1val : validDate (EventBaseLike.date e1) := hvalid e1 he1
  have he2val : validDate (EventBaseLike.date e2) := hvalid e2 he2
  have hdeq : EventBaseLike.date (events[l'.indexOf k1]) =
      EventBaseLike.date e1 :=
    get_date_injOn hrepval he1val (by rw [ha1, hf1])
  rw [hdeq] at hdle
  rcases hdle with hlt | heq
  · exact hlt
  · exfalso
    have hk12 : k1 ≠ k2 := by
      intro he
      rw [he] at hidx
      omega
    exact hk12 (by rw [← hf1, ← hf2, heq])

/-! ## Document builder lemmas -/

theorem dateHeaders_flatMap {α : Type} (gs : List (String × List α))
    (f : α → List EventRow) (w : List Nat) :
    (gs.flatMap (fun kv =>
      Block.dateHeader kv.1 ::
        (if kv.2.flatMap f = [] then []
         else [Block.table (kv.2.flatMap f) w, Block.spacer]))).filterMap
      (fun b => match b with
        | Block.dateHeader s => some s
        | _ => none) = gs.map Prod.fst := by
  induction gs with
  | nil => rfl
  | cons kv gs ih =>
    simp only [List.flatMap_cons, List.filterMap_append, List.map_cons]
    rw [ih]
    by_cases h : kv.2.flatMap f = []
    · simp [h]
    · simp [h]

theorem dateHeaders_build_schedule_pdf {α : Type} (title : String)
    (gs : List (String × List α)) (f : α → List EventRow) (w : List Nat) :
    dateHeaders (build_schedule_pdf title gs f w) = gs.map Prod.fst := by
  unfold dateHeaders build_schedule_pdf
  rw [List.filterMap_append]
  rw [dateHeaders_flatMap gs f w]
  rfl

theorem dateHeader_mem_build_schedule_pdf {α : Type} (title : String)
    (gs : List (String × List α)) (f : α → List EventRow) (w : List Nat)
    {kv : String × List α} (h : kv ∈ gs) :
    Block.dateHeader kv.1 ∈ build_schedule_pdf title gs f w := by
  unfold build_schedule_pdf
  rw [List.mem_append]
  right
  rw [List.mem_flatMap]
  exact ⟨kv, h, List.mem_cons_self _ _⟩

theorem table_mem_build_schedule_pdf {α : Type} {title : String}
    {gs : List (String × List α)} {f : α → List EventRow} {w : List Nat}
    {rows : List EventRow} {cw : List Nat}
    (h : Block.table rows cw ∈ build_schedule_pdf title gs f w) :
    rows ≠ [] ∧ cw = w ∧ ∃ kv ∈ gs, rows = kv.2.flatMap f := by
  unfold build_schedule_pdf at h
  rw [List.mem_append] at h
  rcases h with h | h
  · simp at h
  · rw [List.mem_flatMap] at h
    obtain ⟨kv, hkv, hmem⟩ := h
    rcases List.mem_cons.mp hmem with he | hmem'
    · exact absurd he (by simp)
    · by_cases hd : kv.2.flatMap f = []
      · rw [if_pos hd] at hmem'
        simp at hmem'
      · rw [if_neg hd] at hmem'
        rcases List.mem_cons.mp hmem' with he | hmem''
        · injection he with h1 h2
          subst h1; subst h2
          exact ⟨hd, rfl, kv, hkv, rfl⟩
        · simp at hmem''

theorem no_table_for_empty_group {α : Type} {title : String}
    {gs : List (String × List α)} {f : α → List EventRow} {w : List Nat}
    {rows : List EventRow} {cw : List Nat} :
    Block.table rows cw ∈ build_schedule_pdf title gs f w → rows ≠ [] :=
  fun h => (table_mem_build_schedule_pdf h).1

/-! ## Supporting lemmas for the claims -/

theorem get_schedules_some {rows : List Row} {evs : List Event}
    {scheds : List PersonalSchedule}
    (h : get_schedules rows = some (evs, scheds)) :
    ∃ recs, parseRows rows = some recs ∧
      evs = (buildEvents recs).map Prod.snd ∧
      scheds = (buildPersonal recs).map (fun kv =>
        ⟨kv.1, get_events_sorted_by_time kv.2⟩) := by
  rw [get_schedules_eq] at h
  rcases hp : parseRows rows with _ | recs
  · rw [hp] at h
    exact Option.noConfusion h
  · rw [hp] at h
    simp only [Option.some.injEq, Prod.mk.injEq] at h
    exact ⟨recs, rfl, h.1.symm, h.2.symm⟩

theorem parseRecord_fields {row : Row} {r : Record}
    (h : parseRecord row = some r) :
    r.event_name = row.event ∧ r.person = row.person ∧ r.group = row.group ∧
      r.place = row.place ∧ validDate r.date := by
  unfold parseRecord at h
  rcases h1 : get_datetime row.startTime with _ | dt1 <;> rw [h1] at h
  · exact Option.noConfusion h
  rcases h2 : get_datetime row.endTime with _ | dt2 <;> rw [h2] at h
  · exact Option.noConfusion h
  injection h with h'
  subst h'
  exact ⟨rfl, rfl, rfl, rfl, get_datetime_validDate h1⟩

theorem parseRows_validDate {rows : List Row} {recs : List Record}
    (h : parseRows rows = some recs) : ∀ r ∈ recs, validDate r.date := by
  induction rows generalizing recs with
  | nil =>
    simp [parseRows] at h
    subst h
    simp
  | cons row rest ih =>
    simp only [parseRows] at h
    rcases hr : parseRecord row with _ | r0 <;> rw [hr] at h
    · exact Option.noConfusion h
    rcases hp : parseRows rest with _ | recs' <;> rw [hp] at h
    · exact Option.noConfusion h
    simp only [Option.map_some', Option.some.injEq] at h
    subst h
    intro r hmem
    rcases List.mem_cons.mp hmem with he | hmem'
    · subst he
      exact (parseRecord_fields hr).2.2.2.2
    · exact ih hp r hmem'

theorem parseRows_eq_none_of_mem {rows : List Row} {row : Row}
    (hrow : row ∈ rows) (h : parseRecord row = none) :
    parseRows rows = none := by
  induction rows with
  | nil => simp at hrow
  | cons r0 rest ih =>
    simp only [parseRows]
    rcases List.mem_cons.mp hrow with he | hmem
    · subst he
      rw [h]
    · rcases hr : parseRecord r0 with _ | rr
      · rfl
      · rw [ih hmem]
        rfl

theorem filter_key_of_nodup {κ ν : Type} [DecidableEq κ]
    {m : List (κ × ν)} (hn : (m.map Prod.fst).Nodup) (k : κ) :
    m.filter (fun kv => decide (kv.1 = k)) =
      match assocLookup k m with
      | none => []
      | some v => [(k, v)] := by
  induction m with
  | nil => rfl
  | cons kv0 m ih =>
    have hn' : (m.map Prod.fst).Nodup := (List.nodup_cons.mp (by simpa using hn)).2
    have hk0 : kv0.1 ∉ m.map Prod.fst := (List.nodup_cons.mp (by simpa using hn)).1
    rw [List.filter_cons]
    by_cases he : kv0.1 = k
    · subst he
      rw [if_pos (by simp)]
      have hrest : m.filter (fun kv => decide (kv.1 = kv0.1)) = [] := by
        rw [List.filter_eq_nil_iff]
        intro kv hkv
        simp only [decide_eq_true_eq]
        intro hc
        exact hk0 (hc ▸ List.mem_map_of_mem Prod.fst hkv)
      have hlook : assocLookup kv0.1 (kv0 :: m) = some kv0.2 := by
        unfold assocLookup
        simp [List.find?_cons]
      rw [hrest, hlook]
    · rw [if_neg (by simp [he])]
      rw [ih hn']
      have hlook : assocLookup k (kv0 :: m) = assocLookup k m := by
        unfold assocLookup
        rw [List.find?_cons]
        rw [show (decide (kv0.1 = k)) = false from by simp [he]]
      rw [hlook]

theorem attendeesOf_buildEvents (recs : List Record) (k : EventKey) :
    attendeesOf k ((buildEvents recs).map Prod.snd) = peopleOf k recs := by
  unfold attendeesOf
  have hn : ((buildEvents recs).map Prod.fst).Nodup := by
    rw [buildEvents_keys]
    exact nodup_firstOccurrences _
  rw [List.filter_map]
  have hcong : (buildEvents recs).filter
      ((fun e => decide (eventKeyOf e = k)) ∘ Prod.snd) =
      (buildEvents recs).filter (fun kv => decide (kv.1 = k)) := by
    apply List.filter_congr
    intro kv hkv
    have hinv := (buildEvents_invariant recs kv hkv).1
    simp [Function.comp, hinv]
  rw [hcong, filter_key_of_nodup hn k, buildEvents_lookup]
  by_cases hp : (peopleOf k recs).isEmpty
  · rw [if_pos hp]
    simp only [List.map_nil, List.flatMap_nil]
    rw [List.isEmpty_iff] at hp
    exact hp.symm
  · rw [if_neg hp]
    simp [mkEventK]

/-! ## The claims -/

/-- C1 counterexample: the record parser does NOT accept the colon form
`DD/MM/YYYY HH:MM`.  The fixed time format is `"%H.%M"` (period), so the
colon-form string `"01/06/2024 09:00"` from the spec raises a format
error, and a row carrying such values fails to parse. -/
theorem c1_counterexample :
    get_datetime "01/06/2024 09:00" = none ∧
    parseRecord ⟨"Opening", "Alice", "A", "Hall",
      "01/06/2024 09:00", "01/06/2024 10:00"⟩ = none := by
  constructor <;> rfl

/-- C1 (amended): for every input row whose `Start time` and `End time`
values are formatted as `DD/MM/YYYY HH.MM` (24-hour, PERIOD between hour and
minute, valid calendar date, year 1-9999), the record parser succeeds and
yields the corresponding date, start-time and end-time components. -/
theorem c1_period_format_parses (row : Row)
    (d1 m1 y1 h1 mi1 d2 m2 y2 h2 mi2 : Nat)
    (hs : row.startTime = formattedDateTime d1 m1 y1 h1 mi1)
    (he : row.endTime = formattedDateTime d2 m2 y2 h2 mi2)
    (hd1 : 1 ≤ d1) (hd1m : d1 ≤ daysInMonth y1 m1) (hm1 : 1 ≤ m1)
    (hm1b : m1 ≤ 12) (hy1 : 1 ≤ y1) (hy1b : y1 ≤ 9999) (hh1 : h1 ≤ 23)
    (hmi1 : mi1 ≤ 59)
    (hd2 : 1 ≤ d2) (hd2m : d2 ≤ daysInMonth y2 m2) (hm2 : 1 ≤ m2)
    (hm2b : m2 ≤ 12) (hy2 : 1 ≤ y2) (hy2b : y2 ≤ 9999) (hh2 : h2 ≤ 23)
    (hmi2 : mi2 ≤ 59) :
    parseRecord row = some
      { event_name := row.event, person := row.person, group := row.group
        date := ⟨y1, m1, d1⟩, start_time := ⟨h1, mi1⟩, end_time := ⟨h2, mi2⟩
        place := row.place } := by
  unfold parseRecord
  rw [hs, he,
    get_datetime_formatted hd1 hd1m hm1 hm1b hy1 hy1b hh1 hmi1,
    get_datetime_formatted hd2 hd2m hm2 hm2b hy2 hy2b hh2 hmi2]

/-- Witness for C1: the parser accepts `"01/06/2024 09.00"` /
`"01/06/2024 10.30"` and produces the expected components. -/
theorem c1_witness :
    parseRecord ⟨"Keynote", "Alice", "A", "Hall",
      "01/06/2024 09.00", "01/06/2024 10.30"⟩ =
    some { event_name := "Keynote", person := "Alice", group := "A"
           date := ⟨2024, 6, 1⟩, start_time := ⟨9, 0⟩, end_time := ⟨10, 30⟩
           place := "Hall" } :=
  c1_period_format_parses _ 1 6 2024 9 0 1 6 2024 10 30
    (by decide) (by decide) (by decide) (by decide) (by decide) (by decide)
    (by decide) (by decide) (by decide) (by decide) (by decide) (by decide)
    (by decide) (by decide) (by decide) (by decide) (by decide) (by decide)

/-- C2 counterexample: two "Opening" records on the same date and place
with overlapping but different spans 09:00-10:00 and 09:30-11:00 are NOT
merged: the aggregator keys on the full
`(name, date, start, end, place)` tuple, so the result has two events, each
keeping its own start and end times — no 09:00-11:00 widened event exists. -/
theorem c2_counterexample :
    (add_event "Opening"
        (add_event "Opening" [] "Alice" "A" ⟨2024, 6, 1⟩ ⟨9, 0⟩ ⟨10, 0⟩ "Hall")
        "Bob" "B" ⟨2024, 6, 1⟩ ⟨9, 30⟩ ⟨11, 0⟩ "Hall").length = 2 ∧
    (add_event "Opening"
        (add_event "Opening" [] "Alice" "A" ⟨2024, 6, 1⟩ ⟨9, 0⟩ ⟨10, 0⟩ "Hall")
        "Bob" "B" ⟨2024, 6, 1⟩ ⟨9, 30⟩ ⟨11, 0⟩ "Hall").map
      (fun kv => (kv.2.start_time, kv.2.end_time)) =
    [(⟨9, 0⟩, ⟨10, 0⟩), (⟨9, 30⟩, ⟨11, 0⟩)] := by
  constructor <;> rfl

/-- C2 (amended): records whose key tuples differ (here: same name, date
and place but different time spans) stay separate aggregated events, each
retaining its own `start_time`/`end_time` — no min/max widening — while
records with identical key tuples merge by concatenating attendees. -/
theorem c2_no_widening (name p1 g1 p2 g2 : String) (d : Date)
    (st1 et1 st2 et2 : Time) (pl : String) (h : st1 ≠ st2 ∨ et1 ≠ et2) :
    add_event name (add_event name [] p1 g1 d st1 et1 pl) p2 g2 d st2 et2 pl =
      [(⟨name, d, st1, et1, pl⟩, ⟨name, d, st1, et1, pl, [⟨p1, g1⟩]⟩),
       (⟨name, d, st2, et2, pl⟩, ⟨name, d, st2, et2, pl, [⟨p2, g2⟩]⟩)] ∧
    add_event name (add_event name [] p1 g1 d st1 et1 pl) p2 g2 d st1 et1 pl =
      [(⟨name, d, st1, et1, pl⟩,
        ⟨name, d, st1, et1, pl, [⟨p1, g1⟩, ⟨p2, g2⟩]⟩)] := by
  constructor
  · rcases h with h | h <;>
      simp [add_event, EventKey.mk.injEq, h]
    · intro hst
      exact absurd hst.symm h
    · intro _ het
      exact h het.symm
  · simp [add_event, EventKey.mk.injEq]

/-- Witness for C2 (amended) at the example times from the spec. -/
theorem c2_witness :
    add_event "Opening"
        (add_event "Opening" [] "Alice" "A" ⟨2024, 6, 1⟩ ⟨9, 0⟩ ⟨10, 0⟩ "Hall")
        "Bob" "B" ⟨2024, 6, 1⟩ ⟨9, 30⟩ ⟨11, 0⟩ "Hall" =
      [(⟨"Opening", ⟨2024, 6, 1⟩, ⟨9, 0⟩, ⟨10, 0⟩, "Hall"⟩,
        ⟨"Opening", ⟨2024, 6, 1⟩, ⟨9, 0⟩, ⟨10, 0⟩, "Hall", [⟨"Alice", "A"⟩]⟩),
       (⟨"Opening", ⟨2024, 6, 1⟩, ⟨9, 30⟩, ⟨11, 0⟩, "Hall"⟩,
        ⟨"Opening", ⟨2024, 6, 1⟩, ⟨9, 30⟩, ⟨11, 0⟩, "Hall",
          [⟨"Bob", "B"⟩]⟩)] :=
  (c2_no_widening "Opening" "Alice" "A" "Bob" "B" ⟨2024, 6, 1⟩
    ⟨9, 0⟩ ⟨10, 0⟩ ⟨9, 30⟩ ⟨11, 0⟩ "Hall" (Or.inl (by decide))).1

/-- C4: `get_events_sorted_by_time` sorts ascending by the lexicographic
`(date, startTime)` key, returns a permutation of its input, and is stable
(the subsequence at each fixed key equals the subsequence of the input); in
particular an event dated 2024-01-01 10:00 sorts before one dated
2024-01-02 09:00. -/
theorem c4_sort_sorted_stable :
    (∀ {α : Type} [EventBaseLike α] (events : List α),
      (get_events_sorted_by_time events).Sorted schedLe ∧
      (get_events_sorted_by_time events).Perm events ∧
      ∀ (d : Date) (t : Time),
        (get_events_sorted_by_time events).filter (fun e =>
          decide (EventBaseLike.date e = d ∧
            EventBaseLike.start_time e = t)) =
        events.filter (fun e =>
          decide (EventBaseLike.date e = d ∧
            EventBaseLike.start_time e = t))) ∧
    get_events_sorted_by_time
      [(⟨"A", ⟨2024, 1, 2⟩, ⟨9, 0⟩, ⟨10, 0⟩, "P", "G"⟩ : EventPersonal),
       ⟨"B", ⟨2024, 1, 1⟩, ⟨10, 0⟩, ⟨11, 0⟩, "P", "G"⟩] =
    [⟨"B", ⟨2024, 1, 1⟩, ⟨10, 0⟩, ⟨11, 0⟩, "P", "G"⟩,
     ⟨"A", ⟨2024, 1, 2⟩, ⟨9, 0⟩, ⟨10, 0⟩, "P", "G"⟩] := by
  constructor
  · intro α inst events
    exact ⟨List.sorted_insertionSort schedLe events,
      List.perm_insertionSort schedLe events,
      fun d t => get_events_sorted_by_time_stable events d t⟩
  · rfl

/-- C6 counterexample: for a date group whose events produce no table rows,
`build_schedule_pdf` still emits the date-header block (it is appended
before the row check; only the table and its spacer are skipped), so it is
not true that "no block at all" is emitted for the group. -/
theorem c6_counterexample :
    build_schedule_pdf "T"
      [("01/06/2024",
        [(⟨"A", ⟨2024, 6, 1⟩, ⟨9, 0⟩, ⟨10, 0⟩, "P", "G"⟩ : EventPersonal)])]
      (fun _ => []) [] =
      [Block.title "T", Block.spacer, Block.dateHeader "01/06/2024"] ∧
    Block.dateHeader "01/06/2024" ∈
      build_schedule_pdf "T"
        [("01/06/2024",
          [(⟨"A", ⟨2024, 6, 1⟩, ⟨9, 0⟩, ⟨10, 0⟩, "P", "G"⟩ : EventPersonal)])]
        (fun _ => []) [] := by
  constructor
  · rfl
  · rw [show build_schedule_pdf "T"
      [("01/06/2024",
        [(⟨"A", ⟨2024, 6, 1⟩, ⟨9, 0⟩, ⟨10, 0⟩, "P", "G"⟩ : EventPersonal)])]
      (fun _ => []) [] =
      [Block.title "T", Block.spacer, Block.dateHeader "01/06/2024"]
      from rfl]
    simp

/-- C6 (amended): for every date group that produces no table rows, the
builder still emits the date-header block of the group but skips the table and
spacer: no table block with empty rows is ever emitted. -/
theorem c6_empty_group_header_no_table {α : Type} (title : String)
    (gs : List (String × List α)) (f : α → List EventRow) (w : List Nat)
    (kv : String × List α) (hkv : kv ∈ gs) (hempty : kv.2.flatMap f = []) :
    Block.dateHeader kv.1 ∈ build_schedule_pdf title gs f w ∧
    ∀ (rows : List EventRow) (cw : List Nat),
      Block.table rows cw ∈ build_schedule_pdf title gs f w → rows ≠ [] := by
  refine ⟨dateHeader_mem_build_schedule_pdf title gs f w hkv, ?_⟩
  intro rows cw hmem
  exact no_table_for_empty_group hmem

/-- Witness for C6 (amended) at the same input as the counterexample. -/
theorem c6_witness :
    Block.dateHeader "01/06/2024" ∈
      build_schedule_pdf "T"
        [("01/06/2024",
          [(⟨"A", ⟨2024, 6, 1⟩, ⟨9, 0⟩, ⟨10, 0⟩, "P", "G"⟩ : EventPersonal)])]
        (fun _ => []) [] :=
  (c6_empty_group_header_no_table "T"
    [("01/06/2024",
      [(⟨"A", ⟨2024, 6, 1⟩, ⟨9, 0⟩, ⟨10, 0⟩, "P", "G"⟩ : EventPersonal)])]
    (fun _ => []) []
    ("01/06/2024",
      [(⟨"A", ⟨2024, 6, 1⟩, ⟨9, 0⟩, ⟨10, 0⟩, "P", "G"⟩ : EventPersonal)])
    (by simp) (by rfl)).1

/-- C7: an input containing a row whose `Start time` or `End time` does not
match the fixed `DD/MM/YYYY HH.MM` pattern makes the whole run fail during
parsing: `main_run` yields `none`, i.e. it terminates before the output
directory is created and before any document is produced. -/
theorem c7_malformed_aborts_run (rows : List Row) (output_folder : String)
    (h : ∃ row ∈ rows, get_datetime row.startTime = none ∨
      get_datetime row.endTime = none) :
    main_run rows output_folder = none := by
  obtain ⟨row, hrow, hbad⟩ := h
  have hrec : parseRecord row = none := by
    unfold parseRecord
    rcases hbad with hb | hb
    · rw [hb]
    · rcases h1 : get_datetime row.startTime with _ | dt1
      · rfl
      · rw [hb]
  have hrows : parseRows rows = none := parseRows_eq_none_of_mem hrow hrec
  have hgs : get_schedules rows = none := by
    rw [get_schedules_eq, hrows]
  unfold main_run
  rw [hgs]

/-- Witness for C7: the malformed example from the spec `"2024-06-01 09:00"`
aborts the run. -/
theorem c7_witness :
    main_run [⟨"Opening", "Alice", "A", "Hall",
      "2024-06-01 09:00", "01/06/2024 10.00"⟩] "out" = none :=
  c7_malformed_aborts_run _ "out"
    ⟨⟨"Opening", "Alice", "A", "Hall", "2024-06-01 09:00",
      "01/06/2024 10.00"⟩, by simp, Or.inl (by rfl)⟩

/-- C10: calling `add_event` with a key already present leaves the
stored fields name, date, start_time, end_time and place unchanged and appends
exactly one `(person, group)` pair at the end of its `people` list; lookups
at every other key and the key sequence of the dict are unchanged.  Consequently
in every aggregate map built from records, the fields of each stored event equal
the components of its key and its `people` list is non-empty — which also
holds for the events `get_schedules` returns. -/
theorem c10_add_event_frame_and_invariant :
    (∀ (E : Events) (name person group : String) (d : Date)
      (st et : Time) (pl : String) (ev : Event),
      assocLookup ⟨name, d, st, et, pl⟩ E = some ev →
        assocLookup ⟨name, d, st, et, pl⟩
            (add_event name E person group d st et pl) =
          some { ev with people := ev.people ++ [⟨person, group⟩] } ∧
        (∀ k' : EventKey, k' ≠ ⟨name, d, st, et, pl⟩ →
          assocLookup k' (add_event name E person group d st et pl) =
            assocLookup k' E) ∧
        (add_event name E person group d st et pl).map Prod.fst =
          E.map Prod.fst) ∧
    (∀ recs : List Record, ∀ kv ∈ buildEvents recs,
      eventKeyOf kv.2 = kv.1 ∧ kv.2.people ≠ []) ∧
    (∀ (rows : List Row) (evs : List Event) (scheds : List PersonalSchedule),
      get_schedules rows = some (evs, scheds) →
      ∀ e ∈ evs, e.people ≠ []) := by
  refine ⟨?_, buildEvents_invariant, ?_⟩
  · intro E name person group d st et pl ev hlook
    have hmem : (⟨name, d, st, et, pl⟩ : EventKey) ∈ E.map Prod.fst := by
      by_contra hc
      rw [(assocLookup_eq_none_iff E _).mpr hc] at hlook
      exact Option.noConfusion hlook
    refine ⟨?_, ?_, ?_⟩
    · simp only [add_event]
      rw [if_pos hmem]
      exact assocLookup_update_self
        (fun ev => { ev with people := ev.people ++ [⟨person, group⟩] }) hlook
    · intro k' hk'
      simp only [add_event]
      rw [if_pos hmem]
      exact assocLookup_update_ne E _ k'
        (fun ev => { ev with people := ev.people ++ [⟨person, group⟩] }) hk'
    · simp only [add_event]
      rw [if_pos hmem]
      exact map_fst_update E _
        (fun ev => { ev with people := ev.people ++ [⟨person, group⟩] })
  · intro rows evs scheds h e he
    obtain ⟨recs, _, hevs, _⟩ := get_schedules_some h
    subst hevs
    obtain ⟨kv, hkv, he'⟩ := List.mem_map.mp he
    exact he' ▸ (buildEvents_invariant recs kv hkv).2

/-- Witness for C10: adding "Bob" to a one-entry map at its existing key
appends him to the stored attendee list. -/
theorem c10_witness :
    assocLookup ⟨"Opening", ⟨2024, 6, 1⟩, ⟨9, 0⟩, ⟨10, 0⟩, "Hall"⟩
      (add_event "Opening"
        [(⟨"Opening", ⟨2024, 6, 1⟩, ⟨9, 0⟩, ⟨10, 0⟩, "Hall"⟩,
          ⟨"Opening", ⟨2024, 6, 1⟩, ⟨9, 0⟩, ⟨10, 0⟩, "Hall",
            [⟨"Alice", "A"⟩]⟩)]
        "Bob" "B" ⟨2024, 6, 1⟩ ⟨9, 0⟩ ⟨10, 0⟩ "Hall") =
    some ⟨"Opening", ⟨2024, 6, 1⟩, ⟨9, 0⟩, ⟨10, 0⟩, "Hall",
      [⟨"Alice", "A"⟩, ⟨"Bob", "B"⟩]⟩ :=
  (c10_add_event_frame_and_invariant.1
    [(⟨"Opening", ⟨2024, 6, 1⟩, ⟨9, 0⟩, ⟨10, 0⟩, "Hall"⟩,
      ⟨"Opening", ⟨2024, 6, 1⟩, ⟨9, 0⟩, ⟨10, 0⟩, "Hall", [⟨"Alice", "A"⟩]⟩)]
    "Opening" "Bob" "B" ⟨2024, 6, 1⟩ ⟨9, 0⟩ ⟨10, 0⟩ "Hall"
    ⟨"Opening", ⟨2024, 6, 1⟩, ⟨9, 0⟩, ⟨10, 0⟩, "Hall", [⟨"Alice", "A"⟩]⟩
    (by rfl)).1

/-- C9: the aggregate event list returned by `get_schedules` enumerates
events in insertion order of the first occurrence of each key tuple in the
parsed input: the keys of the returned events are exactly the first
occurrences of the record keys, without duplicates, ordered by strictly
increasing index of first occurrence (and in particular not re-sorted by
date or time). -/
theorem c9_first_occurrence_order (rows : List Row) (recs : List Record)
    (evs : List Event) (scheds : List PersonalSchedule)
    (hp : parseRows rows = some recs)
    (hg : get_schedules rows = some (evs, scheds)) :
    evs.map eventKeyOf = firstOccurrences (recs.map recKey) ∧
    (evs.map eventKeyOf).Nodup ∧
    (∀ k : EventKey, k ∈ evs.map eventKeyOf ↔ k ∈ recs.map recKey) ∧
    (evs.map eventKeyOf).Pairwise (fun k1 k2 =>
      (recs.map recKey).indexOf k1 < (recs.map recKey).indexOf k2) := by
  obtain ⟨recs', hp', hevs, _⟩ := get_schedules_some hg
  rw [hp] at hp'
  injection hp' with hp''
  subst hp''
  have hkeys : evs.map eventKeyOf = firstOccurrences (recs.map recKey) := by
    subst hevs
    rw [List.map_map]
    have : (buildEvents recs).map (eventKeyOf ∘ Prod.snd) =
        (buildEvents recs).map Prod.fst := by
      rw [List.map_eq_map_iff]
      intro kv hkv
      exact (buildEvents_invariant recs kv hkv).1
    rw [this, buildEvents_keys]
  refine ⟨hkeys, ?_, ?_, ?_⟩
  · rw [hkeys]
    exact nodup_firstOccurrences _
  · intro k
    rw [hkeys]
    exact mem_firstOccurrences
  · rw [hkeys]
    exact firstOccurrences_pairwise_indexOf _

/-- Witness for C9 on a three-row input: the "Opening" key (rows 1 and 3)
stays first, "Lunch" second. -/
theorem c9_witness :
    ([⟨"Opening", ⟨2024, 6, 1⟩, ⟨9, 0⟩, ⟨10, 0⟩, "Hall",
        [⟨"Alice", "A"⟩, ⟨"Carol", "C"⟩]⟩,
      ⟨"Lunch", ⟨2024, 6, 1⟩, ⟨12, 0⟩, ⟨13, 0⟩, "Cafe",
        [⟨"Bob", "B"⟩]⟩] : List Event).map eventKeyOf =
      firstOccurrences (([
        ⟨"Opening", "Alice", "A", ⟨2024, 6, 1⟩, ⟨9, 0⟩, ⟨10, 0⟩, "Hall"⟩,
        ⟨"Lunch", "Bob", "B", ⟨2024, 6, 1⟩, ⟨12, 0⟩, ⟨13, 0⟩, "Cafe"⟩,
        ⟨"Opening", "Carol", "C", ⟨2024, 6, 1⟩, ⟨9, 0⟩, ⟨10, 0⟩,
          "Hall"⟩] : List Record).map recKey) :=
  (c9_first_occurrence_order
    [⟨"Opening", "Alice", "A", "Hall", "01/06/2024 09.00",
      "01/06/2024 10.00"⟩,
     ⟨"Lunch", "Bob", "B", "Cafe", "01/06/2024 12.00", "01/06/2024 13.00"⟩,
     ⟨"Opening", "Carol", "C", "Hall", "01/06/2024 09.00",
      "01/06/2024 10.00"⟩]
    [⟨"Opening", "Alice", "A", ⟨2024, 6, 1⟩, ⟨9, 0⟩, ⟨10, 0⟩, "Hall"⟩,
     ⟨"Lunch", "Bob", "B", ⟨2024, 6, 1⟩, ⟨12, 0⟩, ⟨13, 0⟩, "Cafe"⟩,
     ⟨"Opening", "Carol", "C", ⟨2024, 6, 1⟩, ⟨9, 0⟩, ⟨10, 0⟩, "Hall"⟩]
    [⟨"Opening", ⟨2024, 6, 1⟩, ⟨9, 0⟩, ⟨10, 0⟩, "Hall",
      [⟨"Alice", "A"⟩, ⟨"Carol", "C"⟩]⟩,
     ⟨"Lunch", ⟨2024, 6, 1⟩, ⟨12, 0⟩, ⟨13, 0⟩, "Cafe", [⟨"Bob", "B"⟩]⟩]
    [⟨"Alice", [⟨"Opening", ⟨2024, 6, 1⟩, ⟨9, 0⟩, ⟨10, 0⟩, "Hall", "A"⟩]⟩,
     ⟨"Bob", [⟨"Lunch", ⟨2024, 6, 1⟩, ⟨12, 0⟩, ⟨13, 0⟩, "Cafe", "B"⟩]⟩,
     ⟨"Carol", [⟨"Opening", ⟨2024, 6, 1⟩, ⟨9, 0⟩, ⟨10, 0⟩, "Hall", "C"⟩]⟩]
    (by rfl) (by rfl)).1

/-- C3: in the personal-schedule output, every person appearing in the
input appears exactly once as a key (the person list has no duplicates and
contains exactly the persons of the input), and the event count per person equals
the number of input rows naming that person — no deduplication. -/
theorem c3_personal_schedules_complete (rows : List Row) (evs : List Event)
    (scheds : List PersonalSchedule)
    (h : get_schedules rows = some (evs, scheds)) :
    (scheds.map PersonalSchedule.person).Nodup ∧
    (∀ p : String, p ∈ scheds.map PersonalSchedule.person ↔
      ∃ row ∈ rows, row.person = p) ∧
    (∀ sch ∈ scheds, sch.events.length =
      rows.countP (fun row => decide (row.person = sch.person))) := by
  obtain ⟨recs, hp, _, hsch⟩ := get_schedules_some h
  have hpersons : scheds.map PersonalSchedule.person =
      (buildPersonal recs).map Prod.fst := by
    subst hsch
    rw [List.map_map]
    rfl
  have hmapp := parseRows_map_person hp
  have hkeysn : ((buildPersonal recs).map Prod.fst).Nodup := by
    rw [buildPersonal_keys]
    exact nodup_firstOccurrences _
  refine ⟨?_, ?_, ?_⟩
  · rw [hpersons]
    exact hkeysn
  · intro p
    rw [hpersons, buildPersonal_keys, mem_firstOccurrences, hmapp]
    simp [List.mem_map]
  · intro sch hsch'
    subst hsch
    obtain ⟨kv, hkv, he⟩ := List.mem_map.mp hsch'
    have hlook := assocLookup_of_mem_nodup hkeysn hkv
    rw [buildPersonal_lookup] at hlook
    have hvals : kv.2 = personalOf kv.1 recs := by
      by_cases hemp : (personalOf kv.1 recs).isEmpty
      · rw [if_pos hemp] at hlook
        exact Option.noConfusion hlook
      · rw [if_neg hemp] at hlook
        injection hlook with h'
        exact h'.symm
    have hper : sch.person = kv.1 := by rw [← he]
    have hevents : sch.events = get_events_sorted_by_time kv.2 := by
      rw [← he]
    rw [hevents, hper]
    have hlen : (get_events_sorted_by_time kv.2).length = kv.2.length :=
      (List.perm_insertionSort schedLe kv.2).length_eq
    rw [hlen, hvals]
    unfold personalOf
    rw [List.length_map, ← List.countP_eq_length_filter]
    have : rows.countP (fun row => decide (row.person = kv.1)) =
        (rows.map Row.person).countP (fun s => decide (s = kv.1)) := by
      rw [List.countP_map]
      rfl
    rw [this, ← hmapp, List.countP_map]
    rfl

/-- Witness for C3 on a two-row input naming Alice twice. -/
theorem c3_witness :
    (([⟨"Alice", [⟨"Opening", ⟨2024, 6, 1⟩, ⟨9, 0⟩, ⟨10, 0⟩, "Hall", "A"⟩,
        ⟨"Lunch", ⟨2024, 6, 1⟩, ⟨12, 0⟩, ⟨13, 0⟩, "Cafe", "A"⟩]⟩] :
      List PersonalSchedule).map PersonalSchedule.person).Nodup :=
  (c3_personal_schedules_complete
    [⟨"Opening", "Alice", "A", "Hall", "01/06/2024 09.00",
      "01/06/2024 10.00"⟩,
     ⟨"Lunch", "Alice", "A", "Cafe", "01/06/2024 12.00",
      "01/06/2024 13.00"⟩]
    [⟨"Opening", ⟨2024, 6, 1⟩, ⟨9, 0⟩, ⟨10, 0⟩, "Hall", [⟨"Alice", "A"⟩]⟩,
     ⟨"Lunch", ⟨2024, 6, 1⟩, ⟨12, 0⟩, ⟨13, 0⟩, "Cafe", [⟨"Alice", "A"⟩]⟩]
    [⟨"Alice", [⟨"Opening", ⟨2024, 6, 1⟩, ⟨9, 0⟩, ⟨10, 0⟩, "Hall", "A"⟩,
      ⟨"Lunch", ⟨2024, 6, 1⟩, ⟨12, 0⟩, ⟨13, 0⟩, "Cafe", "A"⟩]⟩]
    (by rfl)).1

/-- C8: permuting the input rows yields the same set of aggregated events
(the same key tuples occur) with the same attendee membership per event,
viewed as sets — even though the first-seen insertion order may differ.
(Proved for all inputs, which subsumes the no-ambiguity case of the claim: under
the full key tuple, attendee lists never depend on input order as sets.) -/
theorem c8_aggregation_order_independent (rows1 rows2 : List Row)
    (evs1 evs2 : List Event) (scheds1 scheds2 : List PersonalSchedule)
    (hperm : rows1.Perm rows2)
    (h1 : get_schedules rows1 = some (evs1, scheds1))
    (h2 : get_schedules rows2 = some (evs2, scheds2)) :
    ∀ k : EventKey,
      ((∃ e ∈ evs1, eventKeyOf e = k) ↔ (∃ e ∈ evs2, eventKeyOf e = k)) ∧
      ∀ p : Person, p ∈ attendeesOf k evs1 ↔ p ∈ attendeesOf k evs2 := by
  obtain ⟨recs1, hp1, hevs1, _⟩ := get_schedules_some h1
  obtain ⟨recs2, hp2, hevs2, _⟩ := get_schedules_some h2
  have hrperm : recs1.Perm recs2 := parseRows_perm hperm hp1 hp2
  intro k
  have hatt1 : attendeesOf k evs1 = peopleOf k recs1 := by
    rw [hevs1]; exact attendeesOf_buildEvents recs1 k
  have hatt2 : attendeesOf k evs2 = peopleOf k recs2 := by
    rw [hevs2]; exact attendeesOf_buildEvents recs2 k
  have hpperm : (peopleOf k recs1).Perm (peopleOf k recs2) := by
    unfold peopleOf
    exact ((hrperm.filter _).map _)
  constructor
  · have hm1 : ∀ (evs : List Event) (recs : List Record),
        evs = (buildEvents recs).map Prod.snd →
        ((∃ e ∈ evs, eventKeyOf e = k) ↔ k ∈ recs.map recKey) := by
      intro evs recs hevs
      subst hevs
      constructor
      · rintro ⟨e, he, hek⟩
        obtain ⟨kv, hkv, he'⟩ := List.mem_map.mp he
        have hinv := (buildEvents_invariant recs kv hkv).1
        have : k ∈ (buildEvents recs).map Prod.fst := by
          rw [← hek, ← he', hinv]
          exact List.mem_map_of_mem Prod.fst hkv
        rw [buildEvents_keys, mem_firstOccurrences] at this
        exact this
      · intro hk
        have : k ∈ (buildEvents recs).map Prod.fst := by
          rw [buildEvents_keys, mem_firstOccurrences]
          exact hk
        obtain ⟨kv, hkv, he'⟩ := List.mem_map.mp this
        refine ⟨kv.2, List.mem_map_of_mem Prod.snd hkv, ?_⟩
        rw [(buildEvents_invariant recs kv hkv).1, he']
    rw [hm1 evs1 recs1 hevs1, hm1 evs2 recs2 hevs2]
    constructor
    · intro hk
      exact (hrperm.map recKey).mem_iff.mp hk
    · intro hk
      exact (hrperm.map recKey).mem_iff.mpr hk
  · intro p
    rw [hatt1, hatt2]
    exact hpperm.mem_iff

/-- Witness for C8: swapping two rows preserves the "Opening" attendee
set. -/
theorem c8_witness :
    (⟨"Alice", "A"⟩ : Person) ∈
      attendeesOf ⟨"Opening", ⟨2024, 6, 1⟩, ⟨9, 0⟩, ⟨10, 0⟩, "Hall"⟩
        [⟨"Opening", ⟨2024, 6, 1⟩, ⟨9, 0⟩, ⟨10, 0⟩, "Hall",
          [⟨"Alice", "A"⟩, ⟨"Bob", "B"⟩]⟩] ↔
    (⟨"Alice", "A"⟩ : Person) ∈
      attendeesOf ⟨"Opening", ⟨2024, 6, 1⟩, ⟨9, 0⟩, ⟨10, 0⟩, "Hall"⟩
        [⟨"Opening", ⟨2024, 6, 1⟩, ⟨9, 0⟩, ⟨10, 0⟩, "Hall",
          [⟨"Bob", "B"⟩, ⟨"Alice", "A"⟩]⟩] :=
  (c8_aggregation_order_independent
    [⟨"Opening", "Alice", "A", "Hall", "01/06/2024 09.00",
      "01/06/2024 10.00"⟩,
     ⟨"Opening", "Bob", "B", "Hall", "01/06/2024 09.00",
      "01/06/2024 10.00"⟩]
    [⟨"Opening", "Bob", "B", "Hall", "01/06/2024 09.00",
      "01/06/2024 10.00"⟩,
     ⟨"Opening", "Alice", "A", "Hall", "01/06/2024 09.00",
      "01/06/2024 10.00"⟩]
    [⟨"Opening", ⟨2024, 6, 1⟩, ⟨9, 0⟩, ⟨10, 0⟩, "Hall",
      [⟨"Alice", "A"⟩, ⟨"Bob", "B"⟩]⟩]
    [⟨"Opening", ⟨2024, 6, 1⟩, ⟨9, 0⟩, ⟨10, 0⟩, "Hall",
      [⟨"Bob", "B"⟩, ⟨"Alice", "A"⟩]⟩]
    [⟨"Alice", [⟨"Opening", ⟨2024, 6, 1⟩, ⟨9, 0⟩, ⟨10, 0⟩, "Hall", "A"⟩]⟩,
     ⟨"Bob", [⟨"Opening", ⟨2024, 6, 1⟩, ⟨9, 0⟩, ⟨10, 0⟩, "Hall", "B"⟩]⟩]
    [⟨"Bob", [⟨"Opening", ⟨2024, 6, 1⟩, ⟨9, 0⟩, ⟨10, 0⟩, "Hall", "B"⟩]⟩,
     ⟨"Alice", [⟨"Opening", ⟨2024, 6, 1⟩, ⟨9, 0⟩, ⟨10, 0⟩, "Hall", "A"⟩]⟩]
    (List.Perm.swap _ _ _) (by rfl) (by rfl)
    ⟨"Opening", ⟨2024, 6, 1⟩, ⟨9, 0⟩, ⟨10, 0⟩, "Hall"⟩).2 ⟨"Alice", "A"⟩

theorem scheds_events_sorted_valid {rows : List Row} {evs : List Event}
    {scheds : List PersonalSchedule}
    (h : get_schedules rows = some (evs, scheds)) :
    ∀ sch ∈ scheds, sch.events.Sorted schedLe ∧
      ∀ e ∈ sch.events, validDate e.date := by
  obtain ⟨recs, hp, _, hsch⟩ := get_schedules_some h
  subst hsch
  intro sch hsch'
  obtain ⟨kv, hkv, he⟩ := List.mem_map.mp hsch'
  have hev : sch.events = get_events_sorted_by_time kv.2 := by rw [← he]
  have hkeysn : ((buildPersonal recs).map Prod.fst).Nodup := by
    rw [buildPersonal_keys]
    exact nodup_firstOccurrences _
  constructor
  · rw [hev]
    exact List.sorted_insertionSort _ _
  · intro e hee
    rw [hev] at hee
    have hmem : e ∈ kv.2 := (List.mem_insertionSort schedLe).mp hee
    have hlook := assocLookup_of_mem_nodup hkeysn hkv
    rw [buildPersonal_lookup] at hlook
    have hvals : kv.2 = personalOf kv.1 recs := by
      by_cases hemp : (personalOf kv.1 recs).isEmpty
      · rw [if_pos hemp] at hlook
        exact Option.noConfusion hlook
      · rw [if_neg hemp] at hlook
        injection hlook with h'
        exact h'.symm
    rw [hvals] at hmem
    unfold personalOf at hmem
    obtain ⟨r, hr, hre⟩ := List.mem_map.mp hmem
    have hrv := parseRows_validDate hp r (List.mem_of_mem_filter hr)
    rw [← hre]
    exact hrv

/-- C5 counterexample: an aggregate schedule with events inserted 02/06
before 01/06 renders its two date-header groups in first-seen order
02/06/2024 then 01/06/2024 — NOT ascending date order, although
01/06/2024 is the strictly smaller date.  (The aggregate event sequence is
never sorted before grouping.) -/
theorem c5_counterexample :
    get_schedules
      [⟨"A", "Al", "G", "H", "02/06/2024 09.00", "02/06/2024 10.00"⟩,
       ⟨"B", "Bo", "G", "H", "01/06/2024 09.00", "01/06/2024 10.00"⟩] =
      some ([⟨"A", ⟨2024, 6, 2⟩, ⟨9, 0⟩, ⟨10, 0⟩, "H", [⟨"Al", "G"⟩]⟩,
             ⟨"B", ⟨2024, 6, 1⟩, ⟨9, 0⟩, ⟨10, 0⟩, "H", [⟨"Bo", "G"⟩]⟩],
            [⟨"Al", [⟨"A", ⟨2024, 6, 2⟩, ⟨9, 0⟩, ⟨10, 0⟩, "H", "G"⟩]⟩,
             ⟨"Bo", [⟨"B", ⟨2024, 6, 1⟩, ⟨9, 0⟩, ⟨10, 0⟩, "H", "G"⟩]⟩]) ∧
    dateHeaders (build_overall_schedule_pdf
      [⟨"A", ⟨2024, 6, 2⟩, ⟨9, 0⟩, ⟨10, 0⟩, "H", [⟨"Al", "G"⟩]⟩,
       ⟨"B", ⟨2024, 6, 1⟩, ⟨9, 0⟩, ⟨10, 0⟩, "H", [⟨"Bo", "G"⟩]⟩]) =
      ["02/06/2024", "01/06/2024"] ∧
    dateLt ⟨2024, 6, 1⟩ ⟨2024, 6, 2⟩ := by
  refine ⟨by rfl, by rfl, by decide⟩

/-- C5 (amended): date grouping emits one header group per distinct date
string, each group non-empty, containing only events whose formatted date
equals the group key, internally `(date, startTime)`-sorted.  For PERSONAL
schedules (whose event sequence `get_schedules` pre-sorts) the date-header
groups appear in strictly ascending date order; for the AGGREGATE schedule
the groups appear in first-seen order of the (unsorted) aggregate event
list, which need not be ascending. -/
theorem c5_date_groups :
    (∀ (rows : List Row) (evs : List Event) (scheds : List PersonalSchedule),
      get_schedules rows = some (evs, scheds) →
      ∀ sch ∈ scheds,
        dateHeaders (build_personal_schedule_pdf sch.person sch.events) =
          (get_events_by_date sch.events).map Prod.fst ∧
        ((get_events_by_date sch.events).map Prod.fst).Pairwise
          (fun k1 k2 => ∀ e1 ∈ sch.events, ∀ e2 ∈ sch.events,
            get_date e1.date = k1 → get_date e2.date = k2 →
            dateLt e1.date e2.date) ∧
        ∀ kv ∈ get_events_by_date sch.events,
          kv.2 ≠ [] ∧ (∀ e ∈ kv.2, get_date e.date = kv.1) ∧
            (∀ e ∈ kv.2, e ∈ sch.events) ∧ kv.2.Sorted schedLe) ∧
    (∀ evs : List Event,
      dateHeaders (build_overall_schedule_pdf evs) =
        (get_events_by_date evs).map Prod.fst ∧
      ∀ kv ∈ get_events_by_date evs,
        kv.2 ≠ [] ∧ (∀ e ∈ kv.2, get_date e.date = kv.1) ∧
          kv.2.Sorted schedLe) := by
  constructor
  · intro rows evs scheds h sch hsch
    obtain ⟨hsort, hvalid⟩ := scheds_events_sorted_valid h sch hsch
    refine ⟨?_, ?_, ?_⟩
    · exact dateHeaders_build_schedule_pdf sch.person
        (get_events_by_date sch.events) _ _
    · exact groups_pairwise_dateLt sch.events hsort hvalid
    · intro kv hkv
      obtain ⟨h1, h2, h3, h4⟩ := get_events_by_date_entries sch.events kv hkv
      exact ⟨h1, h2, h3, h4⟩
  · intro evs
    refine ⟨?_, ?_⟩
    · exact dateHeaders_build_schedule_pdf "Aikataulu"
        (get_events_by_date evs) _ _
    · intro kv hkv
      obtain ⟨h1, h2, _, h4⟩ := get_events_by_date_entries evs kv hkv
      exact ⟨h1, h2, h4⟩

/-- Witness for C5 (amended): a personal schedule with events on 01/06 and
02/06 renders its date headers in that (ascending) group order. -/
theorem c5_witness :
    dateHeaders (build_personal_schedule_pdf
      (PersonalSchedule.person ⟨"Al",
        [⟨"B", ⟨2024, 6, 1⟩, ⟨9, 0⟩, ⟨10, 0⟩, "H", "G"⟩,
         ⟨"A", ⟨2024, 6, 2⟩, ⟨9, 0⟩, ⟨10, 0⟩, "H", "G"⟩]⟩)
      (PersonalSchedule.events ⟨"Al",
        [⟨"B", ⟨2024, 6, 1⟩, ⟨9, 0⟩, ⟨10, 0⟩, "H", "G"⟩,
         ⟨"A", ⟨2024, 6, 2⟩, ⟨9, 0⟩, ⟨10, 0⟩, "H", "G"⟩]⟩)) =
    (get_events_by_date (PersonalSchedule.events ⟨"Al",
        [⟨"B", ⟨2024, 6, 1⟩, ⟨9, 0⟩, ⟨10, 0⟩, "H", "G"⟩,
         ⟨"A", ⟨2024, 6, 2⟩, ⟨9, 0⟩, ⟨10, 0⟩, "H", "G"⟩]⟩)).map
      Prod.fst :=
  (c5_date_groups.1
    [⟨"A", "Al", "G", "H", "02/06/2024 09.00", "02/06/2024 10.00"⟩,
     ⟨"B", "Al", "G", "H", "01/06/2024 09.00", "01/06/2024 10.00"⟩]
    [⟨"A", ⟨2024, 6, 2⟩, ⟨9, 0⟩, ⟨10, 0⟩, "H", [⟨"Al", "G"⟩]⟩,
     ⟨"B", ⟨2024, 6, 1⟩, ⟨9, 0⟩, ⟨10, 0⟩, "H", [⟨"Al", "G"⟩]⟩]
    [⟨"Al", [⟨"B", ⟨2024, 6, 1⟩, ⟨9, 0⟩, ⟨10, 0⟩, "H", "G"⟩,
             ⟨"A", ⟨2024, 6, 2⟩, ⟨9, 0⟩, ⟨10, 0⟩, "H", "G"⟩]⟩]
    (by rfl)
    ⟨"Al", [⟨"B", ⟨2024, 6, 1⟩, ⟨9, 0⟩, ⟨10, 0⟩, "H", "G"⟩,
            ⟨"A", ⟨2024, 6, 2⟩, ⟨9, 0⟩, ⟨10, 0⟩, "H", "G"⟩]⟩
    (by simp)).1
